import Mathlib

/-!
Verification of `heyAI_Yan_bot.py` (a Telegram relay bot for the Yandex GPT
completion API).

The development shallowly embeds the bot's pure logic:

* a JSON value type together with executable models of `json.dumps`
  (`json_dumps`) and `json.loads` (`json_loads`), faithful to Python's `json`
  module where the bot's behaviour depends on it (maximal-munch numeric
  literals validated against Python's number grammar, duplicate object keys
  resolved last-value-wins at first position as `dict(pairs)` does, strict
  rejection of raw control characters inside strings, `NaN` / `Infinity`
  constants, the four JSON whitespace characters);
* the relevant Python `str` methods (`strip`, `split`, `join`, `startswith`)
  and the dynamic semantics of `in`, subscription and item assignment on
  decoded JSON values, including the exceptions they raise;
* the methods of `YandexGPTClient` (`_clean_markdown_json`,
  `_fix_timestamp_in_response`, `_extract_response_content`,
  `_create_error_response`, `get_response`) and the message handler of
  `TelegramBot`.

Machine-level caveats of the embedding, none of which the verified claims
depend on: `float` values are carried as their source literals and never
arithmetically normalised on re-serialisation; lone surrogate `\uXXXX`
escapes are rejected by the embedded decoder (Lean strings store scalar
values only); `json.dumps(..., indent=2)` pretty-printing whitespace is not
reproduced (all statements about serialised output go through `json_loads`,
which is whitespace-insensitive); `str.strip` uses the ASCII whitespace set.
-/

/-- A decoded JSON value, as produced by `json.loads`.  Numbers keep their
source literal (so ints and floats are carried exactly and re-serialised
verbatim); object member lists are in insertion order. -/
inductive Json where
  | null
  | bool (b : Bool)
  | num (lit : String)
  | str (s : String)
  | arr (items : List Json)
  | obj (fields : List (String × Json))

/-- The decimal digit character for `d < 10`. -/
def digitChar (d : Nat) : Char := Char.ofNat (48 + d)

/-- Decimal digits of `n`, most significant first.  Same text as Python's
`str(int)` on non-negative input. -/
def natChars (n : Nat) : List Char :=
  if n < 10 then [digitChar n]
  else natChars (n / 10) ++ [digitChar (n % 10)]
decreasing_by exact Nat.div_lt_self (by omega) (by omega)

/-- The decimal literal of an integer, as Python's `str(int)` prints it. -/
def intChars (i : Int) : List Char :=
  if i < 0 then '-' :: natChars i.natAbs else natChars i.natAbs

/-- A JSON number carrying an integer value, as `json.dumps` serialises
Python ints. -/
def jsonInt (i : Int) : Json := .num ⟨intChars i⟩

/-- The hexadecimal digit character for `d < 16` (lower case, as CPython's
`json` emits). -/
def hexDigitChar (d : Nat) : Char :=
  if d < 10 then Char.ofNat (48 + d) else Char.ofNat (87 + d)

/-- JSON escape of one character, following `json.dumps` with
`ensure_ascii=False`: quote, backslash and the named control characters get
two-character escapes, any other control character a `\u00XX` escape, and
everything else passes through. -/
def escChar (c : Char) : List Char :=
  if c = '"' then ['\\', '"']
  else if c = '\\' then ['\\', '\\']
  else if c = '\n' then ['\\', 'n']
  else if c = '\r' then ['\\', 'r']
  else if c = '\t' then ['\\', 't']
  else if c = Char.ofNat 8 then ['\\', 'b']
  else if c = Char.ofNat 12 then ['\\', 'f']
  else if c.toNat < 32 then
    ['\\', 'u', '0', '0', hexDigitChar (c.toNat / 16), hexDigitChar (c.toNat % 16)]
  else [c]

/-- A serialised JSON string: quote, escaped body, quote. -/
def quoteChars (s : String) : List Char :=
  '"' :: (s.data.flatMap escChar ++ ['"'])

mutual
/-- `json.dumps` at the character level (compact separators; see the header
note on whitespace). -/
def dumpChars : Json → List Char
  | .null => ['n', 'u', 'l', 'l']
  | .bool false => ['f', 'a', 'l', 's', 'e']
  | .bool true => ['t', 'r', 'u', 'e']
  | .num lit => lit.data
  | .str s => quoteChars s
  | .arr [] => ['[', ']']
  | .arr (x :: xs) => '[' :: (dumpChars x ++ (moreItems xs ++ [']']))
  | .obj [] => [Char.ofNat 123, Char.ofNat 125]
  | .obj (f :: fs) =>
      Char.ofNat 123 :: (oneField f ++ (moreFields fs ++ [Char.ofNat 125]))

/-- The remaining array items, each preceded by a comma. -/
def moreItems : List Json → List Char
  | [] => []
  | x :: xs => ',' :: (dumpChars x ++ moreItems xs)

/-- One serialised object member: quoted key, colon, value. -/
def oneField : String × Json → List Char
  | (k, v) => quoteChars k ++ (':' :: dumpChars v)

/-- The remaining object members, each preceded by a comma. -/
def moreFields : List (String × Json) → List Char
  | [] => []
  | f :: fs => ',' :: (oneField f ++ moreFields fs)
end

/-- `json.dumps` (see the header note on whitespace fidelity). -/
def json_dumps (j : Json) : String := ⟨dumpChars j⟩

/-! ### Decoding (`json.loads`) -/

/-- The four whitespace characters the JSON grammar allows between tokens. -/
def isJsonWs (c : Char) : Bool :=
  c = ' ' || c = '\t' || c = '\n' || c = '\r'

/-- Drop leading JSON whitespace. -/
def skipWs : List Char → List Char
  | c :: cs => if isJsonWs c then skipWs cs else c :: cs
  | [] => []

/-- Value of a hexadecimal digit character. -/
def hexVal (c : Char) : Option Nat :=
  if '0' ≤ c ∧ c ≤ '9' then some (c.toNat - 48)
  else if 'a' ≤ c ∧ c ≤ 'f' then some (c.toNat - 87)
  else if 'A' ≤ c ∧ c ≤ 'F' then some (c.toNat - 55)
  else none

/-- The decoded character for a single-character escape (`\\x`). -/
def escCode (e : Char) : Option Char :=
  if e = '"' then some '"'
  else if e = '\\' then some '\\'
  else if e = '/' then some '/'
  else if e = 'b' then some (Char.ofNat 8)
  else if e = 'f' then some (Char.ofNat 12)
  else if e = 'n' then some '\n'
  else if e = 'r' then some '\r'
  else if e = 't' then some '\t'
  else none

/-- Body of a JSON string after the opening quote: unescapes until the
closing quote and returns the decoded text with the remaining input.  Raw
control characters are rejected, as CPython's decoder does in its default
strict mode; a `\uXXXX` escape must denote a Unicode scalar value (see the
header note on lone surrogates). -/
def scanString : List Char → Option (List Char × List Char)
  | [] => none
  | c :: rest =>
    if c = '"' then some ([], rest)
    else if c = '\\' then
      match rest with
      | [] => none
      | e :: rest2 =>
          if e = 'u' then
            match rest2 with
            | a :: b :: c2 :: d :: rest3 => do
                let va ← hexVal a
                let vb ← hexVal b
                let vc ← hexVal c2
                let vd ← hexVal d
                let n := ((va * 16 + vb) * 16 + vc) * 16 + vd
                if h : n.isValidChar then
                  let (body, more) ← scanString rest3
                  some (Char.ofNatAux n h :: body, more)
                else none
            | _ => none
          else do
            let ch ← escCode e
            let (body, more) ← scanString rest2
            some (ch :: body, more)
    else if c.toNat < 32 then none
    else do
      let (body, more) ← scanString rest
      some (c :: body, more)

/-- Characters a numeric literal may consist of.  The scanner takes the
maximal run of these and then validates it against the number grammar. -/
def isNumChar (c : Char) : Bool :=
  c.isDigit || c = '-' || c = '+' || c = '.' || c = 'e' || c = 'E'

/-- A remainder the scanner's maximal-munch number run cannot extend:
empty, or headed by a character outside the numeric alphabet.  Every
inter-token position of serialised JSON qualifies. -/
def numDelim : List Char → Bool
  | [] => true
  | c :: _ => !(isNumChar c)

/-- `[0-9]+` to the end of the literal. -/
def allDigits1 : List Char → Bool
  | [] => false
  | c :: t => c.isDigit && t.all Char.isDigit

/-- `[+-]? [0-9]+` to the end of the literal. -/
def signedDigits : List Char → Bool
  | '+' :: t => allDigits1 t
  | '-' :: t => allDigits1 t
  | t => allDigits1 t

/-- `([eE] [+-]? [0-9]+)?` to the end of the literal. -/
def expTail : List Char → Bool
  | [] => true
  | 'e' :: t => signedDigits t
  | 'E' :: t => signedDigits t
  | _ => false

/-- `(\.[0-9]+)? ([eE] [+-]? [0-9]+)?` to the end of the literal. -/
def fracTail : List Char → Bool
  | '.' :: t =>
      (match t with
        | c :: _ => c.isDigit
        | [] => false) && expTail (t.dropWhile Char.isDigit)
  | t => expTail t

/-- Python's JSON number grammar
`-? (0 | [1-9][0-9]*) (\.[0-9]+)? ([eE][+-]?[0-9]+)?`, as a predicate on a
complete literal. -/
def validNumber (lit : List Char) : Bool :=
  match lit with
  | '-' :: t => intPart t
  | t => intPart t
where
  /-- `(0 | [1-9][0-9]*)` followed by the fraction/exponent tail. -/
  intPart : List Char → Bool
  | '0' :: t => fracTail t
  | c :: t => c.isDigit && fracTail (t.dropWhile Char.isDigit)
  | [] => false

/-- Insert a member into an object's field list: an existing key keeps its
position and takes the new value; a new key goes at the end.  This is one
assignment step of a CPython `dict`. -/
def objInsert (fs : List (String × Json)) (k : String) (v : Json) :
    List (String × Json) :=
  match fs with
  | [] => [(k, v)]
  | (k', v') :: t => if k' = k then (k', v) :: t else (k', v') :: objInsert t k v

/-- `dict(pairs)`: fold the decoded member pairs into a dict, so a duplicate
key keeps its first position with its last value — what `json.loads` does
with repeated keys. -/
def dictOfPairs (ps : List (String × Json)) : List (String × Json) :=
  ps.foldl (fun acc p => objInsert acc p.1 p.2) []

/-- Is the head of the input this character? -/
def headIs (c : Char) : List Char → Bool
  | c2 :: _ => c2 = c
  | [] => false

/-- Match an exact literal tail, yielding the given value. -/
def expectChars (pat : List Char) (v : Json) (r : List Char) :
    Option (Json × List Char) :=
  if pat.isPrefixOf r then some (v, r.drop pat.length) else none

/-- A numeric literal at the head of the input: the maximal run of numeric
characters, validated against the number grammar. -/
def scanNumber (cs : List Char) : Option (Json × List Char) :=
  if validNumber (cs.takeWhile isNumChar) then
    some (.num ⟨cs.takeWhile isNumChar⟩, cs.dropWhile isNumChar)
  else none

mutual
/-- One JSON value at the head of the input (leading whitespace allowed),
with the remaining input.  Structural on `fuel`; the top-level entry point
supplies more fuel than any input can consume. -/
def scanValue : Nat → List Char → Option (Json × List Char)
  | 0, _ => none
  | fuel + 1, cs =>
    match skipWs cs with
    | [] => none
    | c :: r =>
      if c = 'n' then expectChars ['u', 'l', 'l'] .null r
      else if c = 't' then expectChars ['r', 'u', 'e'] (.bool true) r
      else if c = 'f' then expectChars ['a', 'l', 's', 'e'] (.bool false) r
      else if c = 'N' then expectChars ['a', 'N'] (.num "NaN") r
      else if c = 'I' then
        expectChars ['n', 'f', 'i', 'n', 'i', 't', 'y'] (.num "Infinity") r
      else if c = '"' then
        match scanString r with
        | some (body, more) => some (.str ⟨body⟩, more)
        | none => none
      else if c = '[' then
        if headIs ']' (skipWs r) then some (.arr [], (skipWs r).tail)
        else
          match scanItems fuel (skipWs r) with
          | some (items, more) => some (.arr items, more)
          | none => none
      else if c = Char.ofNat 123 then
        if headIs (Char.ofNat 125) (skipWs r) then some (.obj [], (skipWs r).tail)
        else
          match scanFields fuel (skipWs r) with
          | some (pairs, more) => some (.obj (dictOfPairs pairs), more)
          | none => none
      else if c = '-' then
        if ['I', 'n', 'f', 'i', 'n', 'i', 't', 'y'].isPrefixOf r then
          some (.num "-Infinity", r.drop 8)
        else scanNumber (c :: r)
      else scanNumber (c :: r)

/-- One or more comma-separated array items, consuming the closing `]`. -/
def scanItems : Nat → List Char → Option (List Json × List Char)
  | 0, _ => none
  | fuel + 1, cs =>
    match scanValue fuel cs with
    | none => none
    | some (v, r) =>
        if headIs ',' (skipWs r) then
          match scanItems fuel (skipWs r).tail with
          | some (vs, more) => some (v :: vs, more)
          | none => none
        else if headIs ']' (skipWs r) then some ([v], (skipWs r).tail)
        else none

/-- One or more comma-separated object members, consuming the closing
brace.  Returns the member pairs in source order (duplicates included);
`scanValue` applies `dictOfPairs`. -/
def scanFields : Nat → List Char → Option (List (String × Json) × List Char)
  | 0, _ => none
  | fuel + 1, cs =>
    if headIs '"' (skipWs cs) then
      match scanString (skipWs cs).tail with
      | none => none
      | some (key, r1) =>
          if headIs ':' (skipWs r1) then
            match scanValue fuel (skipWs r1).tail with
            | none => none
            | some (v, r3) =>
                if headIs ',' (skipWs r3) then
                  match scanFields fuel (skipWs r3).tail with
                  | some (fs, more) => some ((⟨key⟩, v) :: fs, more)
                  | none => none
                else if headIs (Char.ofNat 125) (skipWs r3) then
                  some ([(⟨key⟩, v)], (skipWs r3).tail)
                else none
          else none
    else none
end

/-- `json.loads`: decode a complete document; anything but trailing
whitespace after the value is an error (`JSONDecodeError`, modelled as
`none`). -/
def json_loads (s : String) : Option Json :=
  match scanValue (s.data.length + 1) s.data with
  | some (v, rest) => if skipWs rest = [] then some v else none
  | none => none

/-! ### Python `str` helpers used by `_clean_markdown_json` -/

/-- Whitespace for `str.strip()` (the ASCII part; see the header note). -/
def isStrWs (c : Char) : Bool :=
  c = ' ' || c = '\t' || c = '\n' || c = '\r' || c = Char.ofNat 11 || c = Char.ofNat 12

/-- `str.strip()` on a character list: drop whitespace at both ends. -/
def stripChars (l : List Char) : List Char :=
  ((l.dropWhile isStrWs).reverse.dropWhile isStrWs).reverse

/-- `str.strip()`. -/
def pyStrip (s : String) : String := ⟨stripChars s.data⟩

/-- `str.split('\n')` on a character list: wherever a newline occurs, cut
(empty pieces included). -/
def splitNl (l : List Char) : List (List Char) :=
  match l with
  | [] => [[]]
  | c :: t =>
      let rest := splitNl t
      if c = '\n' then [] :: rest
      else match rest with
        | h :: r => (c :: h) :: r
        | [] => [[c]]

/-- `'\n'.join(lines)` on character lists. -/
def joinNl : List (List Char) → List Char
  | [] => []
  | [l] => l
  | l :: ls => l ++ '\n' :: joinNl ls

/-- `text.startswith("```")`. -/
def startsWithFence (l : List Char) : Bool :=
  match l with
  | '`' :: '`' :: '`' :: _ => true
  | _ => false

/-- `YandexGPTClient._clean_markdown_json`: strip the text; if it starts
with a code fence, drop the first line (when there is more than one), drop
the last line when that line strips to a bare fence, rejoin; strip again. -/
def clean_markdown_json (text : String) : String :=
  let t := stripChars text.data
  let t :=
    if startsWithFence t then
      let lines := splitNl t
      let lines := if lines.length > 1 then lines.drop 1 else lines
      let lines :=
        match lines.getLast? with
        | some last =>
            if stripChars last = ['`', '`', '`'] then lines.dropLast else lines
        | none => lines
      joinNl lines
    else t
  ⟨stripChars t⟩

/-! ### Python dynamic semantics on decoded values -/

/-- `type(v).__name__` for a decoded JSON value. -/
def jsonPyTypeName : Json → String
  | .null => "NoneType"
  | .bool _ => "bool"
  | .num lit => if lit.data.all (fun c => c.isDigit || c = '-') then "int" else "float"
  | .str _ => "str"
  | .arr _ => "list"
  | .obj _ => "dict"

/-- The exceptions `get_response`'s `try` block can raise.  The class
hierarchy the `except` clauses dispatch on is captured by the predicates
below. -/
inductive PyExc where
  /-- `requests.exceptions.Timeout` from `requests.post`. -/
  | timeoutExc
  /-- `requests.exceptions.HTTPError` from `raise_for_status()`, carrying
  the status code of the attached `e.response` (`none` when no response is
  attached; `raise_for_status()` always attaches one).  The handler's
  `if e.response` guard calls `Response.__bool__`, which is `Response.ok` —
  see `get_response_handlers`. -/
  | httpErrorExc (status : Option Int)
  /-- `requests.exceptions.ConnectionError` from `requests.post`. -/
  | connectionErrorExc
  /-- Any other `requests.exceptions.RequestException` subclass raised by
  `requests.post`, identified by its type name. -/
  | requestExc (typeName : String)
  /-- `requests.exceptions.JSONDecodeError` from `response.json()` on an
  undecodable body.  Since requests 2.27 this class subclasses both
  `requests.exceptions.RequestException` (via `InvalidJSONError`) and
  `json.JSONDecodeError`. -/
  | reqJSONDecodeErrorExc
  /-- `KeyError` (missing dict key, or raised explicitly). -/
  | keyErrorExc
  /-- `IndexError` (sequence index out of range). -/
  | indexErrorExc
  /-- `TypeError`, with `str(e)`. -/
  | typeErrorExc (msg : String)
  /-- `AttributeError`, with `str(e)`. -/
  | attributeErrorExc (msg : String)

/-- `isinstance(e, requests.exceptions.Timeout)`. -/
def isRequestsTimeout : PyExc → Bool
  | .timeoutExc => true
  | _ => false

/-- `isinstance(e, requests.exceptions.HTTPError)`. -/
def isRequestsHTTPError : PyExc → Bool
  | .httpErrorExc _ => true
  | _ => false

/-- `isinstance(e, requests.exceptions.ConnectionError)`. -/
def isRequestsConnectionError : PyExc → Bool
  | .connectionErrorExc => true
  | _ => false

/-- `isinstance(e, requests.exceptions.RequestException)`.  True for all
the transport exceptions, including `requests.exceptions.JSONDecodeError`. -/
def isRequestException : PyExc → Bool
  | .timeoutExc => true
  | .httpErrorExc _ => true
  | .connectionErrorExc => true
  | .requestExc _ => true
  | .reqJSONDecodeErrorExc => true
  | _ => false

/-- `isinstance(e, json.JSONDecodeError)`. -/
def isJSONDecodeError : PyExc → Bool
  | .reqJSONDecodeErrorExc => true
  | _ => false

/-- `type(e).__name__`. -/
def pyExcTypeName : PyExc → String
  | .timeoutExc => "Timeout"
  | .httpErrorExc _ => "HTTPError"
  | .connectionErrorExc => "ConnectionError"
  | .requestExc n => n
  | .reqJSONDecodeErrorExc => "JSONDecodeError"
  | .keyErrorExc => "KeyError"
  | .indexErrorExc => "IndexError"
  | .typeErrorExc _ => "TypeError"
  | .attributeErrorExc _ => "AttributeError"

/-- `str(e)`, where the embedding carries it. -/
def pyExcMessage : PyExc → String
  | .typeErrorExc m => m
  | .attributeErrorExc m => m
  | _ => ""

/-- First value bound to a key in a field list (decoded dicts carry each
key once, so this is plain dict lookup). -/
def lookupField : List (String × Json) → String → Option Json
  | [], _ => none
  | (k, v) :: t, key => if k = key then some v else lookupField t key

/-- Substring test: does the needle occur contiguously in the haystack? -/
def charsInfix (needle : List Char) : List Char → Bool
  | [] => needle.isEmpty
  | c :: t => needle.isPrefixOf (c :: t) || charsInfix needle t

/-- Python `key in v` for a string key: dict key test, substring test on a
string, element equality test on a list; `TypeError` otherwise. -/
def pyContains (key : String) (v : Json) : Except PyExc Bool :=
  match v with
  | .obj fs => .ok (fs.any fun f => f.1 = key)
  | .str s => .ok (charsInfix key.data s.data)
  | .arr xs => .ok (xs.any fun x => match x with | .str s => s = key | _ => false)
  | v => .error (.typeErrorExc
      ("argument of type '" ++ jsonPyTypeName v ++ "' is not iterable"))

/-- Python `v[key]` for a string key: dict lookup (`KeyError` when absent);
`TypeError` on a string, list or non-subscriptable value. -/
def pyGetKey (v : Json) (key : String) : Except PyExc Json :=
  match v with
  | .obj fs =>
      match lookupField fs key with
      | some x => .ok x
      | none => .error .keyErrorExc
  | .str _ => .error (.typeErrorExc "string indices must be integers, not 'str'")
  | .arr _ => .error (.typeErrorExc "list indices must be integers or slices, not str")
  | v => .error (.typeErrorExc
      ("'" ++ jsonPyTypeName v ++ "' object is not subscriptable"))

/-- Python `v[i]` for an int index: list / string indexing with negative
indices from the end; on a dict an int key is a missing key. -/
def pyGetIdx (v : Json) (i : Int) : Except PyExc Json :=
  match v with
  | .arr xs =>
      let n := if i < 0 then i + xs.length else i
      if h : 0 ≤ n ∧ n.toNat < xs.length then .ok (xs.get ⟨n.toNat, h.2⟩)
      else .error .indexErrorExc
  | .str s =>
      let n := if i < 0 then i + s.data.length else i
      if h : 0 ≤ n ∧ n.toNat < s.data.length then
        .ok (.str ⟨[s.data.get ⟨n.toNat, h.2⟩]⟩)
      else .error .indexErrorExc
  | .obj _ => .error .keyErrorExc
  | v => .error (.typeErrorExc
      ("'" ++ jsonPyTypeName v ++ "' object is not subscriptable"))

/-- Python `v[key] = x` for a string key: dict item assignment; `TypeError`
on anything else. -/
def pySetKey (v : Json) (key : String) (x : Json) : Except PyExc Json :=
  match v with
  | .obj fs => .ok (.obj (objInsert fs key x))
  | .str _ => .error (.typeErrorExc "'str' object does not support item assignment")
  | .arr _ => .error (.typeErrorExc "list indices must be integers or slices, not str")
  | v => .error (.typeErrorExc
      ("'" ++ jsonPyTypeName v ++ "' object does not support item assignment"))

/-- Whether a numeric literal denotes zero (every mantissa digit is `0`). -/
def numIsZero (lit : String) : Bool :=
  let mantissa := lit.data.takeWhile fun c => c ≠ 'e' ∧ c ≠ 'E'
  mantissa.any Char.isDigit && (mantissa.filter Char.isDigit).all (· = '0')

/-- Python truth test on a decoded JSON value: `None`, `False`, numeric
zero and empty containers are falsy. -/
def pyFalsy : Json → Bool
  | .null => true
  | .bool b => !b
  | .num lit => numIsZero lit
  | .str s => s = ""
  | .arr xs => xs.isEmpty
  | .obj fs => fs.isEmpty

/-! ### `YandexGPTClient` -/

/-- The error envelope `_create_error_response` serialises.  `details`
carries the call site's keyword details, in order, after the timestamp the
method itself puts first. -/
def error_envelope_json (code message timestamp : String)
    (details : List (String × Json)) : Json :=
  .obj [
    ("status", .str "error"),
    ("data", .null),
    ("error", .obj [
      ("code", .str code),
      ("message", .str message),
      ("details", .obj (("timestamp", .str timestamp) :: details))])]

/-- `YandexGPTClient._create_error_response`: serialise the standard error
envelope. -/
def create_error_response (code message timestamp : String)
    (details : List (String × Json)) : String :=
  json_dumps (error_envelope_json code message timestamp details)

/-- `YandexGPTClient._fix_timestamp_in_response`.  A `json.loads` failure
is caught (`except json.JSONDecodeError` logs a warning) and the response
is returned unchanged; a `TypeError` raised by the membership test or by
the chained subscription/assignment is not caught here and propagates.
The in-place mutation of the nested dict is rebuilt functionally — the
decoded tree has no aliasing, and the two rebuild steps target dicts the
preceding subscriptions already proved to be dicts, so they add no
behaviour. -/
def fix_timestamp_in_response (response correct_timestamp : String) :
    Except PyExc String :=
  match json_loads response with
  | none => .ok response
  | some parsed => do
      let hasData ← pyContains "data" parsed
      if hasData then
        let d ← pyGetKey parsed "data"
        let hasMeta ← pyContains "metadata" d
        if hasMeta then
          let d2 ← pyGetKey parsed "data"
          let m ← pyGetKey d2 "metadata"
          let m2 ← pySetKey m "timestamp" (.str correct_timestamp)
          let d3 ← pySetKey d2 "metadata" m2
          let parsed2 ← pySetKey parsed "data" d3
          .ok (json_dumps parsed2)
        else .ok response
      else .ok response

/-- `list(data.keys()) if isinstance(data, dict) else "invalid_response"`,
the `response_keys` detail of the structure-error envelope. -/
def responseKeys (data : Json) : Json :=
  match data with
  | .obj fs => .arr (fs.map fun f => .str f.1)
  | _ => .str "invalid_response"

/-- The `api_structure_error` envelope `_extract_response_content` builds
in its `except (KeyError, IndexError)` clause. -/
def api_structure_response (data : Json) (timestamp : String) : String :=
  create_error_response "api_structure_error"
    "Неожиданная структура ответа от Yandex API" timestamp
    [("response_keys", responseKeys data)]

/-- The `try` body of `_extract_response_content`: navigate
`data["result"]["alternatives"]`, raise `KeyError` when the alternatives
value is falsy, take `alternatives[0]["message"]["text"]`, clean the text
(`text.strip()` on a non-string raises `AttributeError`), then repair the
timestamp. -/
def extract_try (data : Json) (timestamp : String) : Except PyExc String := do
  let result ← pyGetKey data "result"
  let alternatives ← pyGetKey result "alternatives"
  if pyFalsy alternatives then
    .error .keyErrorExc
  else do
    let alt0 ← pyGetIdx alternatives 0
    let msg ← pyGetKey alt0 "message"
    let raw ← pyGetKey msg "text"
    match raw with
    | .str s => fix_timestamp_in_response (clean_markdown_json s) timestamp
    | other => .error (.attributeErrorExc
        ("'" ++ jsonPyTypeName other ++ "' object has no attribute 'strip'"))

/-- `YandexGPTClient._extract_response_content`: the `try` body under
`except (KeyError, IndexError)`, which answers with the
`api_structure_error` envelope; any other exception propagates to
`get_response`. -/
def extract_response_content (data : Json) (timestamp : String) :
    Except PyExc String :=
  match extract_try data timestamp with
  | .ok s => .ok s
  | .error .keyErrorExc => .ok (api_structure_response data timestamp)
  | .error .indexErrorExc => .ok (api_structure_response data timestamp)
  | .error e => .error e

/-- The observable outcome of the single upstream HTTP interaction in
`get_response`'s `try` block (`requests.post`, `raise_for_status()`,
`response.json()`). -/
inductive UpstreamOutcome where
  /-- `requests.post` raised `requests.exceptions.Timeout`. -/
  | timeout
  /-- `requests.post` raised `requests.exceptions.ConnectionError`. -/
  | connectionFailure
  /-- `requests.post` raised another `RequestException`, of this type name. -/
  | otherRequestFailure (typeName : String)
  /-- `raise_for_status()` raised `HTTPError` for this status code (it
  raises exactly for 4xx and 5xx statuses, and attaches the response to the
  exception). -/
  | httpFailure (status : Int)
  /-- 2xx, but `response.json()` could not decode the body. -/
  | invalidJsonBody
  /-- 2xx with a decoded JSON body. -/
  | body (data : Json)

/-- The `try` block of `get_response`: raise the exception the upstream
outcome stands for, or process the decoded body. -/
def get_response_try (outcome : UpstreamOutcome) (timestamp : String) :
    Except PyExc String :=
  match outcome with
  | .timeout => .error .timeoutExc
  | .connectionFailure => .error .connectionErrorExc
  | .otherRequestFailure n => .error (.requestExc n)
  | .httpFailure st => .error (.httpErrorExc (some st))
  | .invalidJsonBody => .error .reqJSONDecodeErrorExc
  | .body data => extract_response_content data timestamp

/-- The `except` clauses of `get_response`, tried in source order: Timeout,
HTTPError, ConnectionError, RequestException, `json.JSONDecodeError`, then
`Exception`.  Dispatch is by Python class, so the `RequestException` clause
also catches `requests.exceptions.JSONDecodeError` (a `RequestException`
subclass), making the dedicated `json.JSONDecodeError` clause unreachable
for `response.json()` failures.

In the HTTPError clause, `status_code = e.response.status_code if
e.response else "unknown"` tests the response's truth value:
`Response.__bool__` is `Response.ok`, which is `False` exactly for the
4xx and 5xx statuses — the only statuses for which `raise_for_status()`
raises.  So for every `HTTPError` this `try` block can produce the guard
takes the falsy branch, `status_code` is the string `"unknown"`, and
`retry_after = 60 if status_code in [429, 503] else 30` is 30; the
status-carrying arm below is reachable only for a truthy (sub-4xx)
response, which this `try` block never pairs with an `HTTPError`. -/
def get_response_handlers (e : PyExc) (timestamp : String) : String :=
  if isRequestsTimeout e then
    create_error_response "timeout_error"
      "Превышено время ожидания ответа от API" timestamp
      [("retry_after", jsonInt 30)]
  else if isRequestsHTTPError e then
    match e with
    | .httpErrorExc (some st) =>
        if 400 ≤ st ∧ st < 600 then
          create_error_response "http_error" "HTTP ошибка: unknown" timestamp
            [("status_code", .str "unknown"), ("retry_after", jsonInt 30)]
        else
          create_error_response "http_error"
            ("HTTP ошибка: " ++ ⟨intChars st⟩) timestamp
            [("status_code", jsonInt st),
             ("retry_after", jsonInt (if st = 429 ∨ st = 503 then 60 else 30))]
    | _ =>
        create_error_response "http_error" "HTTP ошибка: unknown" timestamp
          [("status_code", .str "unknown"), ("retry_after", jsonInt 30)]
  else if isRequestsConnectionError e then
    create_error_response "connection_error" "Ошибка подключения к API" timestamp
      [("retry_after", jsonInt 60)]
  else if isRequestException e then
    create_error_response "request_error"
      "Ошибка при выполнении запроса к API" timestamp
      [("error_type", .str (pyExcTypeName e)), ("retry_after", jsonInt 30)]
  else if isJSONDecodeError e then
    create_error_response "json_decode_error"
      "Не удалось декодировать JSON ответ от API" timestamp
      [("retry_after", jsonInt 30)]
  else
    create_error_response "unknown_error" "Произошла непредвиденная ошибка" timestamp
      [("error_type", .str (pyExcTypeName e)),
       ("error_message", .str (pyExcMessage e)),
       ("retry_after", jsonInt 60)]

/-- `YandexGPTClient.get_response`.  `timestamp` stands for the value of
`_get_current_timestamp()` computed once at the head of the call (wall
clock, hence a parameter); `prompt_text` is the user's text, which flows
only into the request payload and so never influences the returned string;
`outcome` abstracts the single upstream HTTP interaction. -/
def get_response (timestamp _prompt_text : String) (outcome : UpstreamOutcome) :
    String :=
  match get_response_try outcome timestamp with
  | .ok s => s
  | .error e => get_response_handlers e timestamp

/-! ### `TelegramBot` -/

/-- A message stored by the chat platform. -/
structure TgMessage where
  chat_id : Int
  message_id : Int
  text : String

/-- The chat platform's state: the id it will assign to the next sent
message, and every message it holds. -/
structure ChatState where
  next_id : Int
  messages : List TgMessage

/-- The two outbound primitives `_message_handler` uses, as trace events. -/
inductive TgAction where
  | sendMessage (chat_id message_id : Int) (text : String)
  | editMessageText (chat_id message_id : Int) (text : String)

/-- `update.message.reply_text(text)`: the platform assigns the next
message id, stores the message, and hands the sent message back. -/
def reply_text (st : ChatState) (chat : Int) (text : String) :
    TgMessage × ChatState :=
  let m : TgMessage := ⟨chat, st.next_id, text⟩
  (m, ⟨st.next_id + 1, st.messages ++ [m]⟩)

/-- `context.bot.edit_message_text(text, chat_id, message_id)`: replace, in
place, the text of the message with that chat and message id. -/
def edit_message_text (st : ChatState) (chat mid : Int) (text : String) :
    ChatState :=
  ⟨st.next_id, st.messages.map fun m =>
    if m.chat_id = chat ∧ m.message_id = mid then ⟨m.chat_id, m.message_id, text⟩
    else m⟩

/-- `TelegramBot._message_handler` on an inbound text message: send the
"Думаю..." placeholder, obtain the client's answer, then edit the
placeholder (by the id the platform assigned to it) to that answer.
Returns the final platform state and the ordered trace of the outbound
actions performed. -/
def message_handler (st : ChatState) (chat : Int)
    (user_message timestamp : String) (outcome : UpstreamOutcome) :
    ChatState × List TgAction :=
  let (thinking, st1) := reply_text st chat "Думаю..."
  let ai_response := get_response timestamp user_message outcome
  let st2 := edit_message_text st1 chat thinking.message_id ai_response
  (st2, [.sendMessage chat thinking.message_id "Думаю...",
         .editMessageText chat thinking.message_id ai_response])

/-! ### Upstream body shapes used by the claims -/

/-- A decoded 2xx body whose single completion alternative carries the
given message text: `{"result": {"alternatives": [{"message": {"text":
text}}]}}`. -/
def upstream_body (text : String) : Json :=
  .obj [("result", .obj [("alternatives", .arr [.obj [("message",
    .obj [("text", .str text)])]])])]

/-- A decoded 2xx body whose `result.alternatives` list is empty. -/
def empty_alternatives_body : Json :=
  .obj [("result", .obj [("alternatives", .arr [])])]

/-! ### Well-formedness of decoded values, and envelope accessors -/

/-- No key occurs twice — the invariant of a decoded dict's field list. -/
def keysFresh : List (String × Json) → Bool
  | [] => true
  | (k, _) :: t => !(t.any fun f => f.1 = k) && keysFresh t

/-- A numeric literal `json.loads` can produce: a grammar-valid number or
one of the special constants. -/
def wfNum (lit : String) : Bool :=
  validNumber lit.data || lit = "NaN" || lit = "Infinity" || lit = "-Infinity"

mutual
/-- The values `json.loads` can produce: valid numeric literals, distinct
object keys, throughout the tree.  `json_loads` and `json_dumps` are
mutually inverse on these (proved below). -/
def wfB : Json → Bool
  | .null => true
  | .bool _ => true
  | .num lit => wfNum lit
  | .str _ => true
  | .arr xs => wfList xs
  | .obj fs => keysFresh fs && wfFields fs

/-- `wfB` on every item. -/
def wfList : List Json → Bool
  | [] => true
  | x :: xs => wfB x && wfList xs

/-- `wfB` on every field value. -/
def wfFields : List (String × Json) → Bool
  | [] => true
  | f :: fs => wfB f.2 && wfFields fs
end

/-- Key lookup on an object value (`none` on a non-object). -/
def jsonGet : Json → String → Option Json
  | .obj fs, key => lookupField fs key
  | _, _ => none

/-- Does the serialised envelope's parse have the error shape the client
promises: `status = "error"`, `data = null`, and an `error` object carrying
`code`, `message` and `details`? -/
def isErrorEnvelope (j : Json) : Bool :=
  (match jsonGet j "status" with
    | some (.str s) => s = "error"
    | _ => false) &&
  (match jsonGet j "data" with
    | some .null => true
    | _ => false) &&
  (match jsonGet j "error" with
    | some (.obj fs) =>
        (fs.any fun f => f.1 = "code") && (fs.any fun f => f.1 = "message") &&
          (fs.any fun f => f.1 = "details")
    | _ => false)

/-- The `error.code` field of a parsed envelope. -/
def envCode (j : Json) : Option Json :=
  (jsonGet j "error").bind fun e => jsonGet e "code"

/-- The `error.details` object of a parsed envelope. -/
def envDetails (j : Json) : Option Json :=
  (jsonGet j "error").bind fun e => jsonGet e "details"

/-- One field of `error.details`. -/
def envDetail (j : Json) (key : String) : Option Json :=
  (envDetails j).bind fun d => jsonGet d key

/-- Whether `error.details` carries the given key at all. -/
def envDetailHasKey (j : Json) (key : String) : Bool :=
  match envDetails j with
  | some (.obj fs) => fs.any fun f => f.1 = key
  | _ => false

/-! ### Theorems.  First: `strip` and the markdown cleaner (claim C7) -/

theorem dropWhile_dropWhile (p : Char → Bool) (l : List Char) :
    (l.dropWhile p).dropWhile p = l.dropWhile p := by
  induction l with
  | nil => rfl
  | cons c t ih => by_cases h : p c <;> simp [List.dropWhile_cons, h, ih]

theorem dropWhile_fixed_head (p : Char → Bool) (c : Char) (t : List Char)
    (h : (c :: t).dropWhile p = c :: t) : p c = false := by
  by_cases hc : p c
  · exfalso
    have h1 : (c :: t).dropWhile p = t.dropWhile p := by
      simp [List.dropWhile_cons, hc]
    have h3 : t.dropWhile p = c :: t := h1.symm.trans h
    have h2 : (t.dropWhile p).length ≤ t.length :=
      (List.dropWhile_sublist p).length_le
    rw [h3] at h2
    simp at h2
  · simpa using hc

/-- Right-stripping keeps a clean head clean. -/
theorem revDrop_fixed (p : Char → Bool) (l : List Char)
    (h : l.dropWhile p = l) :
    ((l.reverse.dropWhile p).reverse).dropWhile p = (l.reverse.dropWhile p).reverse := by
  cases l with
  | nil => rfl
  | cons c t =>
      have hc : p c = false := dropWhile_fixed_head p c t h
      have hrev : (c :: t).reverse = t.reverse ++ [c] := by simp
      rw [hrev, List.dropWhile_append]
      by_cases he : (t.reverse.dropWhile p).isEmpty
      · rw [if_pos he]
        simp [List.dropWhile_cons, hc]
      · rw [if_neg he]
        rw [List.reverse_append]
        simp [List.dropWhile_cons, hc]

theorem stripChars_idem (l : List Char) :
    stripChars (stripChars l) = stripChars l := by
  unfold stripChars
  have h1 : (l.dropWhile isStrWs).dropWhile isStrWs = l.dropWhile isStrWs :=
    dropWhile_dropWhile _ _
  have h2 := revDrop_fixed isStrWs (l.dropWhile isStrWs) h1
  rw [h2, List.reverse_reverse, dropWhile_dropWhile]

/-- The cleaner always returns a stripped text. -/
theorem clean_markdown_json_data (s : String) :
    ∃ t, (clean_markdown_json s).data = stripChars t :=
  ⟨_, rfl⟩

theorem stripChars_of_clean (s : String) :
    stripChars (clean_markdown_json s).data = (clean_markdown_json s).data := by
  obtain ⟨t, ht⟩ := clean_markdown_json_data s
  rw [ht, stripChars_idem]

/-- A strip-stable text with no leading fence passes through the cleaner
unchanged. -/
theorem clean_markdown_json_of_fixed (s : String)
    (h1 : stripChars s.data = s.data) (h2 : startsWithFence s.data = false) :
    clean_markdown_json s = s := by
  obtain ⟨d⟩ := s
  simp only [clean_markdown_json] at *
  simp only [h1, h2, Bool.false_eq_true, if_false]

/-- Claim C7, amended: the cleaner is idempotent on every input whose
cleaned form does not itself begin with a code fence (the cleaner output is
always strip-stable, and a fence-free strip-stable text passes through
unchanged).  The unconditional claim fails: see the counterexample below. -/
theorem clean_markdown_json_idem_of_no_fence (s : String)
    (h : startsWithFence (clean_markdown_json s).data = false) :
    clean_markdown_json (clean_markdown_json s) = clean_markdown_json s :=
  clean_markdown_json_of_fixed _ (stripChars_of_clean s) h

/-- Witness for the amended C7 theorem at a concrete input. -/
theorem clean_markdown_json_idem_witness :
    startsWithFence (clean_markdown_json "  x  ").data = false ∧
      clean_markdown_json (clean_markdown_json "  x  ") = clean_markdown_json "  x  " :=
  ⟨by decide, clean_markdown_json_idem_of_no_fence "  x  " (by decide)⟩

/-- Claim C7, counterexample: `_clean_markdown_json` is not idempotent.  On
the text between the fences below, one application yields a text that again
begins with a fence, and a second application strips further. -/
theorem clean_markdown_json_not_idem :
    clean_markdown_json (clean_markdown_json "```a\n ``` \nb") ≠
      clean_markdown_json "```a\n ``` \nb" := by
  decide

/-! ### Facts about numeric literals -/

theorem digitChar_isDigit (d : Nat) (h : d < 10) : (digitChar d).isDigit = true := by
  interval_cases d <;> decide

theorem digitChar_ne_zero (d : Nat) (h1 : 1 ≤ d) (h2 : d < 10) : digitChar d ≠ '0' := by
  interval_cases d <;> decide

theorem natChars_all_digits (n : Nat) : (natChars n).all Char.isDigit = true := by
  induction n using Nat.strongRecOn with
  | _ n ih =>
      unfold natChars
      by_cases h : n < 10
      · simp [h, digitChar_isDigit n h]
      · have hd := ih (n / 10) (Nat.div_lt_self (by omega) (by omega))
        simp [h, List.all_append, hd, digitChar_isDigit (n % 10) (Nat.mod_lt _ (by omega))]

theorem natChars_cons (n : Nat) :
    ∃ c t, natChars n = c :: t ∧ c.isDigit = true ∧ (1 ≤ n → c ≠ '0') := by
  induction n using Nat.strongRecOn with
  | _ n ih =>
      unfold natChars
      by_cases h : n < 10
      · refine ⟨digitChar n, [], by simp [h], digitChar_isDigit n h, ?_⟩
        intro h1
        exact digitChar_ne_zero n h1 h
      · obtain ⟨c, t, hrepr, hdig, hz⟩ := ih (n / 10) (Nat.div_lt_self (by omega) (by omega))
        refine ⟨c, t ++ [digitChar (n % 10)], by simp [h, hrepr], hdig, ?_⟩
        intro _
        exact hz (by omega)

theorem intPart_cons_eq (c : Char) (t : List Char) :
    validNumber.intPart (c :: t) =
      if c = '0' then fracTail t
      else c.isDigit && fracTail (t.dropWhile Char.isDigit) := by
  by_cases h : c = '0'
  · subst h
    simp [validNumber.intPart]
  · simp [validNumber.intPart, h]

theorem validNumber_cons_eq (c : Char) (t : List Char) :
    validNumber (c :: t) =
      if c = '-' then validNumber.intPart t
      else validNumber.intPart (c :: t) := by
  by_cases h : c = '-'
  · subst h
    simp [validNumber]
  · simp [validNumber, h]

theorem intPart_of_digits (c : Char) (t : List Char)
    (hc : c.isDigit = true) (hz : c ≠ '0') (ht : t.all Char.isDigit = true) :
    validNumber.intPart (c :: t) = true := by
  rw [intPart_cons_eq, if_neg hz]
  have hdw : t.dropWhile Char.isDigit = [] := by
    rw [List.dropWhile_eq_nil_iff]
    intro x hx
    exact List.all_eq_true.mp ht x hx
  simp [hc, hdw, fracTail, expTail]

theorem natChars_zero : natChars 0 = ['0'] := by
  unfold natChars
  decide

theorem intPart_natChars (n : Nat) : validNumber.intPart (natChars n) = true := by
  by_cases h0 : n = 0
  · subst h0
    rw [natChars_zero]
    rw [intPart_cons_eq]
    simp [fracTail, expTail]
  · obtain ⟨c, t, hrepr, hdig, hz⟩ := natChars_cons n
    have ht : t.all Char.isDigit = true := by
      have := natChars_all_digits n
      rw [hrepr] at this
      simp only [List.all_cons, Bool.and_eq_true] at this
      exact this.2
    rw [hrepr]
    exact intPart_of_digits c t hdig (hz (by omega)) ht

theorem validNumber_intChars (i : Int) : validNumber (intChars i) = true := by
  unfold intChars
  by_cases h : i < 0
  · simp only [h, if_true]
    show validNumber ('-' :: natChars i.natAbs) = true
    rw [validNumber_cons_eq, if_pos rfl]
    exact intPart_natChars i.natAbs
  · simp only [h, if_false]
    obtain ⟨c, t, hrepr, hdig, _⟩ := natChars_cons i.natAbs
    have hc : c ≠ '-' := by
      intro h2
      rw [h2] at hdig
      exact absurd hdig (by decide)
    rw [hrepr, validNumber_cons_eq, if_neg hc, ← hrepr]
    exact intPart_natChars i.natAbs

/-! ### Scanner facts: whitespace, maximal munch, number shapes -/

theorem skipWs_not_ws (c : Char) (r : List Char) (h : isJsonWs c = false) :
    skipWs (c :: r) = c :: r := by
  simp [skipWs, h]

theorem munch_all (p : Char → Bool) (l rest : List Char) (hl : l.all p = true)
    (hr : ∀ c r2, rest = c :: r2 → p c = false) :
    (l ++ rest).takeWhile p = l ∧ (l ++ rest).dropWhile p = rest := by
  induction l with
  | nil =>
      simp only [List.nil_append]
      cases rest with
      | nil => simp
      | cons c r2 =>
          simp [List.takeWhile_cons, List.dropWhile_cons, hr c r2 rfl]
  | cons a l2 ih =>
      simp only [List.all_cons, Bool.and_eq_true] at hl
      have h2 := ih hl.2
      simp [List.takeWhile_cons, List.dropWhile_cons, hl.1, h2.1, h2.2]

theorem numDelim_head (rest : List Char) (h : numDelim rest = true) :
    ∀ c r2, rest = c :: r2 → isNumChar c = false := by
  intro c r2 he
  subst he
  simpa [numDelim] using h

theorem digit_isNumChar (c : Char) (h : c.isDigit = true) : isNumChar c = true := by
  simp [isNumChar, h]

theorem all_digits_isNumChar (l : List Char) (h : l.all Char.isDigit = true) :
    l.all isNumChar = true := by
  rw [List.all_eq_true] at h ⊢
  intro x hx
  exact digit_isNumChar x (h x hx)

theorem allDigits1_all (t : List Char) (h : allDigits1 t = true) :
    t.all Char.isDigit = true := by
  cases t with
  | nil => simp [allDigits1] at h
  | cons c t2 =>
      simp only [allDigits1, Bool.and_eq_true] at h
      simp [h.1, h.2]

theorem signedDigits_eq (l : List Char) :
    signedDigits l =
      if headIs '+' l then allDigits1 l.tail
      else if headIs '-' l then allDigits1 l.tail
      else allDigits1 l := by
  cases l with
  | nil => simp [signedDigits, headIs]
  | cons c t =>
      by_cases h1 : c = '+'
      · subst h1
        simp [signedDigits, headIs]
      · by_cases h2 : c = '-'
        · subst h2
          simp [signedDigits, headIs]
        · simp [signedDigits, headIs, h1, h2]

theorem signedDigits_all (t : List Char) (h : signedDigits t = true) :
    t.all isNumChar = true := by
  rw [signedDigits_eq] at h
  cases t with
  | nil => simp
  | cons c t2 =>
      simp only [headIs, List.tail_cons] at h
      by_cases h1 : c = '+'
      · rw [if_pos (by simp [h1])] at h
        subst h1
        simp [all_digits_isNumChar t2 (allDigits1_all t2 h), isNumChar]
      · rw [if_neg (by simp [h1])] at h
        by_cases h2 : c = '-'
        · rw [if_pos (by simp [h2])] at h
          subst h2
          simp [all_digits_isNumChar t2 (allDigits1_all t2 h), isNumChar]
        · rw [if_neg (by simp [h2])] at h
          exact all_digits_isNumChar _ (allDigits1_all _ h)

theorem expTail_eq (l : List Char) :
    expTail l =
      if headIs 'e' l then signedDigits l.tail
      else if headIs 'E' l then signedDigits l.tail
      else l.isEmpty := by
  cases l with
  | nil => simp [expTail, headIs]
  | cons c t =>
      by_cases h1 : c = 'e'
      · subst h1
        simp [expTail, headIs]
      · by_cases h2 : c = 'E'
        · subst h2
          simp [expTail, headIs]
        · simp [expTail, headIs, h1, h2]

theorem expTail_all (t : List Char) (h : expTail t = true) :
    t.all isNumChar = true := by
  rw [expTail_eq] at h
  cases t with
  | nil => simp
  | cons c t2 =>
      simp only [headIs, List.tail_cons] at h
      by_cases h1 : c = 'e'
      · rw [if_pos (by simp [h1])] at h
        subst h1
        simp [signedDigits_all t2 h, isNumChar]
      · rw [if_neg (by simp [h1])] at h
        by_cases h2 : c = 'E'
        · rw [if_pos (by simp [h2])] at h
          subst h2
          simp [signedDigits_all t2 h, isNumChar]
        · rw [if_neg (by simp [h2])] at h
          simp at h

theorem fracTail_no_dot (l : List Char) (h : headIs '.' l = false) :
    fracTail l = expTail l := by
  cases l with
  | nil => rfl
  | cons c t =>
      simp only [headIs] at h
      have hc : c ≠ '.' := by simpa using h
      simp [fracTail, hc]

theorem takeWhile_all_digits (l : List Char) :
    (l.takeWhile Char.isDigit).all Char.isDigit = true := by
  rw [List.all_eq_true]
  intro x hx
  exact List.mem_takeWhile_imp hx

theorem split_digits_all (l : List Char)
    (h : (l.dropWhile Char.isDigit).all isNumChar = true) :
    l.all isNumChar = true := by
  have hsplit : l.takeWhile Char.isDigit ++ l.dropWhile Char.isDigit = l :=
    List.takeWhile_append_dropWhile (p := Char.isDigit) (l := l)
  rw [← hsplit, List.all_append]
  exact Bool.and_eq_true_iff.mpr
    ⟨all_digits_isNumChar _ (takeWhile_all_digits _), h⟩

theorem fracTail_all (t : List Char) (h : fracTail t = true) :
    t.all isNumChar = true := by
  by_cases hd : headIs '.' t
  · cases t with
    | nil => simp [headIs] at hd
    | cons c t2 =>
        simp only [headIs] at hd
        have hc : c = '.' := by simpa using hd
        subst hc
        cases t2 with
        | nil => simp [fracTail, expTail] at h
        | cons c2 t3 =>
            simp only [fracTail, Bool.and_eq_true] at h
            have h2 : (c2 :: t3).all isNumChar = true :=
              split_digits_all _ (expTail_all _ h.2)
            have h3 : isNumChar '.' = true := by decide
            simp [List.all_cons, h2, h3]
  · rw [fracTail_no_dot t (by simpa using hd)] at h
    exact expTail_all t h

theorem intPart_all (t : List Char) (h : validNumber.intPart t = true) :
    t.all isNumChar = true := by
  cases t with
  | nil => simp [validNumber.intPart] at h
  | cons c t2 =>
      rw [intPart_cons_eq] at h
      by_cases hc : c = '0'
      · rw [if_pos hc] at h
        subst hc
        simp only [List.all_cons, Bool.and_eq_true]
        exact ⟨by decide, fracTail_all t2 h⟩
      · rw [if_neg hc] at h
        simp only [Bool.and_eq_true] at h
        simp only [List.all_cons, Bool.and_eq_true]
        exact ⟨digit_isNumChar c h.1, split_digits_all _ (fracTail_all _ h.2)⟩

theorem validNumber_all (l : List Char) (h : validNumber l = true) :
    l.all isNumChar = true := by
  cases l with
  | nil => simp
  | cons c t =>
      rw [validNumber_cons_eq] at h
      by_cases hc : c = '-'
      · rw [if_pos hc] at h
        subst hc
        simp only [List.all_cons, Bool.and_eq_true]
        exact ⟨by decide, intPart_all t h⟩
      · rw [if_neg hc] at h
        exact intPart_all _ h

theorem intPart_shape (t : List Char) (h : validNumber.intPart t = true) :
    ∃ c2 t2, t = c2 :: t2 ∧ c2.isDigit = true := by
  cases t with
  | nil => simp [validNumber.intPart] at h
  | cons c t2 =>
      rw [intPart_cons_eq] at h
      by_cases hc : c = '0'
      · exact ⟨c, t2, rfl, by rw [hc]; decide⟩
      · rw [if_neg hc] at h
        exact ⟨c, t2, rfl, (Bool.and_eq_true_iff.mp h).1⟩

theorem validNumber_shape (l : List Char) (h : validNumber l = true) :
    ∃ c t, l = c :: t ∧ (c = '-' ∨ c.isDigit = true) ∧
      (c = '-' → ∃ c2 t2, t = c2 :: t2 ∧ c2.isDigit = true) := by
  cases l with
  | nil => exact absurd h (by decide)
  | cons c t =>
      rw [validNumber_cons_eq] at h
      by_cases hc : c = '-'
      · exact ⟨c, t, rfl, Or.inl hc, fun _ => intPart_shape t (by rwa [if_pos hc] at h)⟩
      · rw [if_neg hc] at h
        obtain ⟨c2, t2, he, hd⟩ := intPart_shape _ h
        obtain ⟨rfl, rfl⟩ := List.cons.inj he
        exact ⟨c, t, rfl, Or.inr hd, fun hm => absurd hm hc⟩

theorem digit_gates (c : Char) (h : c.isDigit = true) :
    isJsonWs c = false ∧ c ≠ 'n' ∧ c ≠ 't' ∧ c ≠ 'f' ∧ c ≠ 'N' ∧ c ≠ 'I' ∧
      c ≠ '"' ∧ c ≠ '[' ∧ c ≠ Char.ofNat 123 ∧ c ≠ '-' ∧ c ≠ ']' ∧
      c ≠ Char.ofNat 125 := by
  refine ⟨?_, ?_, ?_, ?_, ?_, ?_, ?_, ?_, ?_, ?_, ?_, ?_⟩
  · by_cases hw : isJsonWs c
    · exfalso
      simp only [isJsonWs, Bool.or_eq_true, decide_eq_true_eq] at hw
      rcases hw with ((rfl | rfl) | rfl) | rfl <;> simp at h
    · simpa using hw
  all_goals (rintro rfl; simp at h)

/-! ### String escaping round-trip -/

theorem ofNatAux_toNat (c : Char) (h : c.toNat.isValidChar) :
    Char.ofNatAux c.toNat h = c := by
  have h2 := Char.ofNat_toNat c
  rw [Char.ofNat, dif_pos h] at h2
  exact h2

theorem hexVal_hexDigitChar (d : Nat) (h : d < 16) :
    hexVal (hexDigitChar d) = some d := by
  interval_cases d <;> decide

theorem scanString_esc (c : Char) (suffix : List Char) :
    scanString (escChar c ++ suffix) =
      (scanString suffix).map fun p => (c :: p.1, p.2) := by
  unfold escChar
  split_ifs with h1 h2 h3 h4 h5 h6 h7 h8
  · subst h1
    cases hs : scanString suffix with
    | none => unfold scanString; simp [escCode, hs]
    | some p =>
        obtain ⟨body, more⟩ := p
        unfold scanString
        simp [escCode, hs]
  · subst h2
    cases hs : scanString suffix with
    | none => unfold scanString; simp [escCode, hs]
    | some p =>
        obtain ⟨body, more⟩ := p
        unfold scanString
        simp [escCode, hs]
  · subst h3
    cases hs : scanString suffix with
    | none => unfold scanString; simp [escCode, hs]
    | some p =>
        obtain ⟨body, more⟩ := p
        unfold scanString
        simp [escCode, hs]
  · subst h4
    cases hs : scanString suffix with
    | none => unfold scanString; simp [escCode, hs]
    | some p =>
        obtain ⟨body, more⟩ := p
        unfold scanString
        simp [escCode, hs]
  · subst h5
    cases hs : scanString suffix with
    | none => unfold scanString; simp [escCode, hs]
    | some p =>
        obtain ⟨body, more⟩ := p
        unfold scanString
        simp [escCode, hs]
  · rw [show c = Char.ofNat 8 from h6]
    cases hs : scanString suffix with
    | none => unfold scanString; simp [escCode, hs]
    | some p =>
        obtain ⟨body, more⟩ := p
        unfold scanString
        simp [escCode, hs]
  · rw [show c = Char.ofNat 12 from h7]
    cases hs : scanString suffix with
    | none => unfold scanString; simp [escCode, hs]
    | some p =>
        obtain ⟨body, more⟩ := p
        unfold scanString
        simp [escCode, hs]
  · show scanString ('\\' :: 'u' :: '0' :: '0' ::
        hexDigitChar (c.toNat / 16) :: hexDigitChar (c.toNat % 16) :: suffix) = _
    have hv0 : hexVal '0' = some 0 := by decide
    have hv1 : hexVal (hexDigitChar (c.toNat / 16)) = some (c.toNat / 16) :=
      hexVal_hexDigitChar _ (by omega)
    have hv2 : hexVal (hexDigitChar (c.toNat % 16)) = some (c.toNat % 16) :=
      hexVal_hexDigitChar _ (by omega)
    have harith : ((0 * 16 + 0) * 16 + c.toNat / 16) * 16 + c.toNat % 16 = c.toNat := by
      omega
    cases hs : scanString suffix with
    | none =>
        unfold scanString
        simp only [hv0, hv1, hv2, harith, reduceIte, Option.bind_eq_bind,
          Option.some_bind]
        rw [if_neg (show ¬(('\\' : Char) = '"') by decide)]
        rw [dif_pos (show c.toNat.isValidChar from c.valid)]
        simp [hs]
    | some p =>
        obtain ⟨body, more⟩ := p
        unfold scanString
        simp only [hv0, hv1, hv2, harith, reduceIte, Option.bind_eq_bind,
          Option.some_bind]
        rw [if_neg (show ¬(('\\' : Char) = '"') by decide)]
        rw [dif_pos (show c.toNat.isValidChar from c.valid)]
        rw [ofNatAux_toNat c c.valid]
        simp [hs]
  · have hc : ¬(c.toNat < 32) := h8
    cases hs : scanString suffix with
    | none =>
        unfold scanString
        simp [h1, h2, hc, hs]
    | some p =>
        obtain ⟨body, more⟩ := p
        unfold scanString
        simp [h1, h2, hc, hs]

theorem scanString_escaped (l : List Char) (rest : List Char) :
    scanString (l.flatMap escChar ++ '"' :: rest) = some (l, rest) := by
  induction l with
  | nil =>
      unfold scanString
      simp
  | cons c t ih =>
      rw [List.flatMap_cons, List.append_assoc, scanString_esc, ih]
      rfl

/-! ### `dict(pairs)` on fresh keys -/

theorem objInsert_fresh (fs : List (String × Json)) (k : String) (v : Json)
    (h : (fs.any fun f => f.1 = k) = false) : objInsert fs k v = fs ++ [(k, v)] := by
  induction fs with
  | nil => rfl
  | cons f t ih =>
      obtain ⟨k0, v0⟩ := f
      simp only [List.any_cons, Bool.or_eq_false_iff] at h
      have hk : k0 ≠ k := by simpa using h.1
      simp [objInsert, hk, ih h.2]

theorem keysFresh_mem_later (l1 l2 : List (String × Json))
    (h : keysFresh (l1 ++ l2) = true) :
    ∀ g ∈ l2, (l1.any fun f => f.1 = g.1) = false := by
  induction l1 with
  | nil => simp
  | cons f t ih =>
      obtain ⟨k0, v0⟩ := f
      intro g hg
      rw [List.cons_append] at h
      simp only [keysFresh, Bool.and_eq_true, Bool.not_eq_true'] at h
      have hne : (decide (k0 = g.1)) = false := by
        have hmem : g ∈ t ++ l2 := List.mem_append_right t hg
        have := List.any_eq_false.mp h.1 g hmem
        simp only [decide_eq_false_iff_not] at this ⊢
        exact fun he => this (by simp [he])
      simp [List.any_cons, hne, ih h.2 g hg]

theorem foldl_objInsert_fresh (ps : List (String × Json)) :
    ∀ acc : List (String × Json), keysFresh (acc ++ ps) = true →
      ps.foldl (fun acc p => objInsert acc p.1 p.2) acc = acc ++ ps := by
  induction ps with
  | nil => intro acc _; simp
  | cons p t ih =>
      intro acc h
      obtain ⟨k, v⟩ := p
      have hfresh : (acc.any fun f => f.1 = k) = false :=
        keysFresh_mem_later acc ((k, v) :: t) h (k, v) (List.mem_cons_self _ _)
      rw [List.foldl_cons]
      show List.foldl (fun acc p => objInsert acc p.1 p.2) (objInsert acc k v) t = _
      rw [objInsert_fresh acc k v hfresh]
      have h2 : keysFresh ((acc ++ [(k, v)]) ++ t) = true := by
        simpa [List.append_assoc] using h
      rw [ih (acc ++ [(k, v)]) h2]
      simp

theorem dictOfPairs_fresh (ps : List (String × Json)) (h : keysFresh ps = true) :
    dictOfPairs ps = ps := by
  have h2 := foldl_objInsert_fresh ps [] (by simpa using h)
  simpa [dictOfPairs] using h2

/-! ### Round-trip of the scanner over serialised output -/

theorem isPrefixOf_self_append (pat rest : List Char) :
    pat.isPrefixOf (pat ++ rest) = true := by
  induction pat with
  | nil => simp [List.isPrefixOf]
  | cons c t ih => simp [List.isPrefixOf, ih]

theorem expectChars_self (pat : List Char) (v : Json) (rest : List Char) :
    expectChars pat v (pat ++ rest) = some (v, rest) := by
  simp [expectChars, isPrefixOf_self_append, List.drop_left]

theorem scanNumber_self (lit : String) (rest : List Char)
    (hv : validNumber lit.data = true) (hr : numDelim rest = true) :
    scanNumber (lit.data ++ rest) = some (.num lit, rest) := by
  have hmunch := munch_all isNumChar lit.data rest (validNumber_all _ hv)
    (numDelim_head rest hr)
  simp only [scanNumber, hmunch.1, hmunch.2, hv, if_pos]

/-- Serialised output of a well-formed value begins with a character that is
neither whitespace nor a closing bracket. -/
theorem dumpChars_head (j : Json) (hwf : wfB j = true) :
    ∃ c t, dumpChars j = c :: t ∧ isJsonWs c = false ∧ c ≠ ']' := by
  cases j with
  | null => exact ⟨'n', _, rfl, by decide, by decide⟩
  | bool b =>
      cases b with
      | true => exact ⟨'t', _, rfl, by decide, by decide⟩
      | false => exact ⟨'f', _, rfl, by decide, by decide⟩
  | str s => exact ⟨'"', _, rfl, by decide, by decide⟩
  | arr xs =>
      cases xs with
      | nil => exact ⟨'[', _, rfl, by decide, by decide⟩
      | cons x xs2 => exact ⟨'[', _, rfl, by decide, by decide⟩
  | obj fs =>
      cases fs with
      | nil => exact ⟨Char.ofNat 123, _, rfl, by decide, by decide⟩
      | cons f fs2 => exact ⟨Char.ofNat 123, _, rfl, by decide, by decide⟩
  | num lit =>
      simp only [wfB, wfNum, Bool.or_eq_true, decide_eq_true_eq] at hwf
      rcases hwf with ((hv | hN) | hI) | hmI
      · obtain ⟨c, t, he, hshape, _⟩ := validNumber_shape lit.data hv
        refine ⟨c, t, by simpa [dumpChars] using he, ?_, ?_⟩
        · rcases hshape with rfl | hd
          · decide
          · exact (digit_gates c hd).1
        · rcases hshape with rfl | hd
          · decide
          · exact (digit_gates c hd).2.2.2.2.2.2.2.2.2.2.1
      · subst hN
        exact ⟨'N', _, rfl, by decide, by decide⟩
      · subst hI
        exact ⟨'I', _, rfl, by decide, by decide⟩
      · subst hmI
        exact ⟨'-', _, rfl, by decide, by decide⟩

theorem rt_num (lit : String) (fuel : Nat) (rest : List Char)
    (hwf : wfNum lit = true) (hr : numDelim rest = true) :
    scanValue (fuel + 1) (lit.data ++ rest) = some (.num lit, rest) := by
  simp only [wfNum, Bool.or_eq_true, decide_eq_true_eq] at hwf
  rcases hwf with ((hv | hN) | hI) | hmI
  · obtain ⟨c, t, he, hshape, hneg⟩ := validNumber_shape lit.data hv
    have hfinal : scanNumber (c :: (t ++ rest)) = some (.num lit, rest) := by
      rw [← List.cons_append, ← he]
      exact scanNumber_self lit rest hv hr
    rcases hshape with rfl | hd
    · obtain ⟨c2, t2, rfl, hd2⟩ := hneg rfl
      have hg := digit_gates c2 hd2
      have hpre : (['I', 'n', 'f', 'i', 'n', 'i', 't', 'y'] : List Char).isPrefixOf
          ((c2 :: t2) ++ rest) = false := by
        simp only [List.cons_append, List.isPrefixOf, Bool.and_eq_false_iff]
        left
        simp only [beq_eq_false_iff_ne, ne_eq]
        exact fun h2 => hg.2.2.2.2.2.1 h2.symm
      rw [he]
      unfold scanValue
      rw [List.cons_append, skipWs_not_ws '-' _ (by decide)]
      simp only [reduceIte, hpre, Bool.false_eq_true, if_false]
      simpa using hfinal
    · have hg := digit_gates c hd
      rw [he]
      unfold scanValue
      rw [List.cons_append, skipWs_not_ws c _ hg.1]
      simp [hg.2.1, hg.2.2.1, hg.2.2.2.1, hg.2.2.2.2.1, hg.2.2.2.2.2.1,
        hg.2.2.2.2.2.2.1, hg.2.2.2.2.2.2.2.1, hg.2.2.2.2.2.2.2.2.1,
        hg.2.2.2.2.2.2.2.2.2.1, hfinal]
  · subst hN
    show scanValue (fuel + 1) ('N' :: 'a' :: 'N' :: rest) = _
    unfold scanValue
    rw [skipWs_not_ws 'N' _ (by decide)]
    simp only [reduceIte]
    exact expectChars_self ['a', 'N'] (.num "NaN") rest
  · subst hI
    show scanValue (fuel + 1)
        ('I' :: 'n' :: 'f' :: 'i' :: 'n' :: 'i' :: 't' :: 'y' :: rest) = _
    unfold scanValue
    rw [skipWs_not_ws 'I' _ (by decide)]
    simp only [reduceIte]
    exact expectChars_self ['n', 'f', 'i', 'n', 'i', 't', 'y'] (.num "Infinity") rest
  · subst hmI
    show scanValue (fuel + 1)
        ('-' :: 'I' :: 'n' :: 'f' :: 'i' :: 'n' :: 'i' :: 't' :: 'y' :: rest) = _
    unfold scanValue
    rw [skipWs_not_ws '-' _ (by decide)]
    have hdrop : (['I', 'n', 'f', 'i', 'n', 'i', 't', 'y'] ++ rest).drop 8 = rest :=
      List.drop_left ['I', 'n', 'f', 'i', 'n', 'i', 't', 'y'] rest
    simp only [reduceIte]
    rw [show ('I' :: 'n' :: 'f' :: 'i' :: 'n' :: 'i' :: 't' :: 'y' :: rest)
        = ['I', 'n', 'f', 'i', 'n', 'i', 't', 'y'] ++ rest from rfl]
    rw [isPrefixOf_self_append]
    simp [hdrop]

theorem numDelim_comma (l : List Char) : numDelim (',' :: l) = true := by
  simp only [numDelim]
  decide

theorem numDelim_rbracket (l : List Char) : numDelim (']' :: l) = true := by
  simp only [numDelim]
  decide

theorem numDelim_rbrace (l : List Char) : numDelim (Char.ofNat 125 :: l) = true := by
  simp only [numDelim]
  decide


mutual
theorem rt_value : ∀ (j : Json) (fuel : Nat) (rest : List Char),
    wfB j = true → (dumpChars j).length < fuel → numDelim rest = true →
    scanValue fuel (dumpChars j ++ rest) = some (j, rest)
  | _, 0, _, _, hf, _ => absurd hf (by omega)
  | .null, fuel + 1, rest, _, _, _ => by
      show scanValue (fuel + 1) ('n' :: 'u' :: 'l' :: 'l' :: rest) = _
      unfold scanValue
      rw [skipWs_not_ws 'n' _ (by decide)]
      simp only [reduceIte]
      exact expectChars_self ['u', 'l', 'l'] .null rest
  | .bool true, fuel + 1, rest, _, _, _ => by
      show scanValue (fuel + 1) ('t' :: 'r' :: 'u' :: 'e' :: rest) = _
      unfold scanValue
      rw [skipWs_not_ws 't' _ (by decide)]
      simp only [reduceIte]
      exact expectChars_self ['r', 'u', 'e'] (.bool true) rest
  | .bool false, fuel + 1, rest, _, _, _ => by
      show scanValue (fuel + 1) ('f' :: 'a' :: 'l' :: 's' :: 'e' :: rest) = _
      unfold scanValue
      rw [skipWs_not_ws 'f' _ (by decide)]
      simp only [reduceIte]
      exact expectChars_self ['a', 'l', 's', 'e'] (.bool false) rest
  | .num lit, fuel + 1, rest, hwf, _, hr =>
      rt_num lit fuel rest (by simpa [wfB] using hwf) hr
  | .str s, fuel + 1, rest, _, _, _ => by
      show scanValue (fuel + 1) (('"' :: (s.data.flatMap escChar ++ ['"'])) ++ rest) = _
      unfold scanValue
      rw [List.cons_append, skipWs_not_ws '"' _ (by decide)]
      rw [List.append_assoc, List.singleton_append]
      simp [scanString_escaped]
  | .arr [], fuel + 1, rest, _, _, _ => by
      show scanValue (fuel + 1) ('[' :: ']' :: rest) = _
      unfold scanValue
      rw [skipWs_not_ws '[' _ (by decide)]
      simp only [reduceIte]
      rw [skipWs_not_ws ']' _ (by decide)]
      simp [headIs]
  | .arr (x :: xs), fuel + 1, rest, hwf, hf, _ => by
      have hwf2 : wfB x = true ∧ wfList xs = true := by
        simpa [wfB, wfList] using hwf
      have hlen : (dumpChars x).length + (moreItems xs).length + 1 < fuel := by
        simp only [dumpChars, List.length_cons, List.length_append] at hf
        omega
      have hitems : scanItems fuel (dumpChars x ++ (moreItems xs ++ (']' :: rest)))
          = some (x :: xs, rest) := rt_items x xs fuel rest hwf2.1 hwf2.2 hlen
      show scanValue (fuel + 1)
          (('[' :: (dumpChars x ++ (moreItems xs ++ [']']))) ++ rest) = _
      unfold scanValue
      rw [List.cons_append, skipWs_not_ws '[' _ (by decide)]
      simp only [reduceIte]
      rw [show (dumpChars x ++ (moreItems xs ++ [']'])) ++ rest
          = dumpChars x ++ (moreItems xs ++ (']' :: rest)) by simp [List.append_assoc]]
      obtain ⟨c0, t0, hx, hws0, hbr0⟩ := dumpChars_head x hwf2.1
      rw [hx, List.cons_append, skipWs_not_ws c0 _ hws0]
      have hhead : headIs ']' (c0 :: (t0 ++ (moreItems xs ++ (']' :: rest)))) = false := by
        simp [headIs, hbr0]
      have hitems2 : scanItems fuel (c0 :: (t0 ++ (moreItems xs ++ (']' :: rest))))
          = some (x :: xs, rest) := by
        rw [← List.cons_append, ← hx]
        exact hitems
      simp [hhead, hitems2]
  | .obj [], fuel + 1, rest, _, _, _ => by
      show scanValue (fuel + 1) (Char.ofNat 123 :: Char.ofNat 125 :: rest) = _
      unfold scanValue
      rw [skipWs_not_ws (Char.ofNat 123) _ (by decide)]
      simp only [reduceIte]
      rw [skipWs_not_ws (Char.ofNat 125) _ (by decide)]
      simp [headIs]
  | .obj ((k, v) :: fs), fuel + 1, rest, hwf, hf, _ => by
      simp only [wfB, wfFields, Bool.and_eq_true] at hwf
      have hlen : (oneField (k, v)).length + (moreFields fs).length + 1 < fuel := by
        simp only [dumpChars, List.length_cons, List.length_append] at hf
        omega
      have hfields : scanFields fuel
            (oneField (k, v) ++ (moreFields fs ++ (Char.ofNat 125 :: rest)))
          = some ((k, v) :: fs, rest) :=
        rt_fields k v fs fuel rest hwf.2.1 hwf.2.2 hlen
      show scanValue (fuel + 1)
          ((Char.ofNat 123 :: (oneField (k, v) ++ (moreFields fs ++ [Char.ofNat 125]))) ++ rest) = _
      unfold scanValue
      rw [List.cons_append, skipWs_not_ws (Char.ofNat 123) _ (by decide)]
      simp only [reduceIte]
      rw [show (oneField (k, v) ++ (moreFields fs ++ [Char.ofNat 125])) ++ rest
          = oneField (k, v) ++ (moreFields fs ++ (Char.ofNat 125 :: rest)) by
        simp [List.append_assoc]]
      have hone : oneField (k, v) ++ (moreFields fs ++ (Char.ofNat 125 :: rest))
          = '"' :: (k.data.flatMap escChar
              ++ ('"' :: (':' :: (dumpChars v ++ (moreFields fs ++ (Char.ofNat 125 :: rest)))))) := by
        simp [oneField, quoteChars, List.append_assoc]
      rw [hone, skipWs_not_ws '"' _ (by decide)]
      have hh : headIs (Char.ofNat 125)
          ('"' :: (k.data.flatMap escChar
            ++ ('"' :: (':' :: (dumpChars v ++ (moreFields fs ++ (Char.ofNat 125 :: rest))))))) = false := by
        simp only [headIs]
        decide
      have hfields2 : scanFields fuel
          ('"' :: (k.data.flatMap escChar
            ++ ('"' :: (':' :: (dumpChars v ++ (moreFields fs ++ (Char.ofNat 125 :: rest)))))))
          = some ((k, v) :: fs, rest) := by
        rw [← hone]
        exact hfields
      have hfresh : dictOfPairs ((k, v) :: fs) = (k, v) :: fs :=
        dictOfPairs_fresh _ hwf.1
      simp [hh, hfields2, hfresh]
termination_by j _ _ _ _ _ => sizeOf j

theorem rt_items : ∀ (x : Json) (xs : List Json) (fuel : Nat) (rest : List Char),
    wfB x = true → wfList xs = true →
    (dumpChars x).length + (moreItems xs).length + 1 < fuel →
    scanItems fuel (dumpChars x ++ (moreItems xs ++ (']' :: rest))) = some (x :: xs, rest)
  | _, _, 0, _, _, _, hf => absurd hf (by omega)
  | x, [], fuel + 1, rest, hwx, _, hf => by
      have hval : scanValue fuel (dumpChars x ++ (moreItems ([] : List Json) ++ (']' :: rest)))
          = some (x, moreItems ([] : List Json) ++ (']' :: rest)) :=
        rt_value x fuel _ hwx (by simp only [moreItems, List.length_nil] at hf; omega)
          (by simp only [moreItems, List.nil_append]; exact numDelim_rbracket rest)
      unfold scanItems
      rw [hval]
      simp only [moreItems, List.nil_append]
      simp [skipWs_not_ws ']' rest (by decide), headIs]
  | x, y :: ys, fuel + 1, rest, hwx, hwxs, hf => by
      have hwy : wfB y = true ∧ wfList ys = true := by simpa [wfList] using hwxs
      have hmlen : (moreItems (y :: ys)).length
          = 1 + ((dumpChars y).length + (moreItems ys).length) := by
        simp only [moreItems, List.length_cons, List.length_append]
        omega
      have hlen2 : (dumpChars y).length + (moreItems ys).length + 1 < fuel := by omega
      have hval : scanValue fuel (dumpChars x ++ (moreItems (y :: ys) ++ (']' :: rest)))
          = some (x, moreItems (y :: ys) ++ (']' :: rest)) :=
        rt_value x fuel _ hwx (by omega)
          (by simp only [moreItems, List.cons_append]; exact numDelim_comma _)
      have hrec : scanItems fuel (dumpChars y ++ (moreItems ys ++ (']' :: rest)))
          = some (y :: ys, rest) := rt_items y ys fuel rest hwy.1 hwy.2 hlen2
      unfold scanItems
      rw [hval]
      rw [show moreItems (y :: ys) ++ (']' :: rest)
          = ',' :: (dumpChars y ++ (moreItems ys ++ (']' :: rest))) by
        simp [moreItems, List.append_assoc]]
      simp [skipWs_not_ws ',' _ (by decide), headIs, hrec]
termination_by x xs _ _ _ _ _ => sizeOf x + sizeOf xs

theorem rt_fields : ∀ (k : String) (v : Json) (fs : List (String × Json)) (fuel : Nat)
    (rest : List Char),
    wfB v = true → wfFields fs = true →
    (oneField (k, v)).length + (moreFields fs).length + 1 < fuel →
    scanFields fuel (oneField (k, v) ++ (moreFields fs ++ (Char.ofNat 125 :: rest)))
      = some ((k, v) :: fs, rest)
  | _, _, _, 0, _, _, _, hf => absurd hf (by omega)
  | k, v, [], fuel + 1, rest, hwv, _, hf => by
      have hvlen : (dumpChars v).length < fuel := by
        simp only [oneField, quoteChars, moreFields, List.length_append, List.length_cons,
          List.length_nil] at hf
        omega
      have hval : scanValue fuel (dumpChars v ++ (Char.ofNat 125 :: rest))
          = some (v, Char.ofNat 125 :: rest) :=
        rt_value v fuel _ hwv hvlen (numDelim_rbrace rest)
      unfold scanFields
      rw [show oneField (k, v)
            ++ (moreFields ([] : List (String × Json)) ++ (Char.ofNat 125 :: rest))
          = '"' :: (k.data.flatMap escChar
              ++ ('"' :: (':' :: (dumpChars v ++ (Char.ofNat 125 :: rest))))) by
        simp [oneField, quoteChars, moreFields, List.append_assoc]]
      rw [skipWs_not_ws '"' _ (by decide)]
      simp only [headIs, List.tail_cons, reduceIte]
      rw [scanString_escaped]
      simp [skipWs_not_ws ':' _ (by decide), skipWs_not_ws (Char.ofNat 125) _ (by decide),
        headIs, hval]
  | k, v, (k2, v2) :: gs, fuel + 1, rest, hwv, hwfs, hf => by
      have hwg : wfB v2 = true ∧ wfFields gs = true := by
        simpa [wfFields] using hwfs
      have honelen : (oneField (k, v)).length
          = (quoteChars k).length + (1 + (dumpChars v).length) := by
        simp only [oneField, List.length_append, List.length_cons]
        omega
      have hqlen : 0 < (quoteChars k).length := by simp [quoteChars]
      have hmlen : (moreFields ((k2, v2) :: gs)).length
          = 1 + ((oneField (k2, v2)).length + (moreFields gs).length) := by
        simp only [moreFields, List.length_cons, List.length_append]
        omega
      have hvlen : (dumpChars v).length < fuel := by omega
      have hlen2 : (oneField (k2, v2)).length + (moreFields gs).length + 1 < fuel := by
        omega
      have hrec : scanFields fuel
          (oneField (k2, v2) ++ (moreFields gs ++ (Char.ofNat 125 :: rest)))
          = some ((k2, v2) :: gs, rest) :=
        rt_fields k2 v2 gs fuel rest hwg.1 hwg.2 hlen2
      have hval : scanValue fuel (dumpChars v
            ++ (',' :: (oneField (k2, v2) ++ (moreFields gs ++ (Char.ofNat 125 :: rest)))))
          = some (v, ',' :: (oneField (k2, v2) ++ (moreFields gs ++ (Char.ofNat 125 :: rest)))) :=
        rt_value v fuel _ hwv hvlen (numDelim_comma _)
      unfold scanFields
      rw [show oneField (k, v)
            ++ (moreFields ((k2, v2) :: gs) ++ (Char.ofNat 125 :: rest))
          = '"' :: (k.data.flatMap escChar ++ ('"' :: (':' :: (dumpChars v
              ++ (',' :: (oneField (k2, v2)
                  ++ (moreFields gs ++ (Char.ofNat 125 :: rest)))))))) by
        simp [oneField, quoteChars, moreFields, List.append_assoc]]
      rw [skipWs_not_ws '"' _ (by decide)]
      simp only [headIs, List.tail_cons, reduceIte]
      rw [scanString_escaped]
      simp [skipWs_not_ws ':' _ (by decide), skipWs_not_ws ',' _ (by decide),
        headIs, hval, hrec]
termination_by k v fs _ _ _ _ _ => sizeOf v + sizeOf fs
end

/-- The decoder inverts the encoder on every well-formed value. -/
theorem json_loads_dumps (j : Json) (hwf : wfB j = true) :
    json_loads (json_dumps j) = some j := by
  have h := rt_value j ((dumpChars j).length + 1) [] hwf (by omega) (by decide)
  rw [List.append_nil] at h
  show json_loads ⟨dumpChars j⟩ = some j
  simp [json_loads, h, skipWs]

/-! ### Decoded values are well-formed -/

theorem objInsert_any_key (t : List (String × Json)) (k : String) (v : Json)
    (key : String) :
    ((objInsert t k v).any fun f => f.1 = key)
      = ((t.any fun f => f.1 = key) || decide (k = key)) := by
  induction t with
  | nil => simp [objInsert]
  | cons f t2 ih =>
      obtain ⟨k0, v0⟩ := f
      by_cases hk : k0 = k
      · subst hk
        simp only [objInsert, if_pos rfl, List.any_cons]
        cases h0 : decide (k0 = key) <;> simp [h0]
      · simp only [objInsert, if_neg hk, List.any_cons, ih]
        cases h0 : decide (k0 = key) <;> simp

theorem objInsert_keysFresh (fs : List (String × Json)) (k : String) (v : Json)
    (h : keysFresh fs = true) : keysFresh (objInsert fs k v) = true := by
  induction fs with
  | nil => simp [objInsert, keysFresh]
  | cons f t ih =>
      obtain ⟨k0, v0⟩ := f
      simp only [keysFresh, Bool.and_eq_true, Bool.not_eq_true'] at h
      by_cases hk : k0 = k
      · subst hk
        simp only [objInsert, if_pos rfl]
        simp only [keysFresh, Bool.and_eq_true, Bool.not_eq_true']
        exact h
      · simp only [objInsert, if_neg hk]
        simp only [keysFresh, Bool.and_eq_true, Bool.not_eq_true']
        refine ⟨?_, ih h.2⟩
        rw [objInsert_any_key, h.1]
        simp only [Bool.false_or, decide_eq_false_iff_not]
        exact fun he => hk he.symm

theorem objInsert_wfFields (fs : List (String × Json)) (k : String) (v : Json)
    (hf : wfFields fs = true) (hv : wfB v = true) :
    wfFields (objInsert fs k v) = true := by
  induction fs with
  | nil => simp [objInsert, wfFields, hv]
  | cons f t ih =>
      obtain ⟨k0, v0⟩ := f
      simp only [wfFields, Bool.and_eq_true] at hf
      by_cases hk : k0 = k
      · subst hk
        simp only [objInsert, if_pos rfl, wfFields, Bool.and_eq_true]
        exact ⟨hv, hf.2⟩
      · simp only [objInsert, if_neg hk, wfFields, Bool.and_eq_true]
        exact ⟨hf.1, ih hf.2⟩

theorem dictOfPairs_keysFresh (ps : List (String × Json)) :
    keysFresh (dictOfPairs ps) = true := by
  have haux : ∀ acc, keysFresh acc = true →
      keysFresh (ps.foldl (fun acc p => objInsert acc p.1 p.2) acc) = true := by
    induction ps with
    | nil => intro acc h; simpa using h
    | cons p t ih =>
        intro acc h
        exact ih _ (objInsert_keysFresh acc p.1 p.2 h)
  exact haux [] rfl

theorem foldl_objInsert_wf (ps : List (String × Json)) :
    ∀ acc, wfFields acc = true → wfFields ps = true →
      wfFields (ps.foldl (fun acc p => objInsert acc p.1 p.2) acc) = true := by
  induction ps with
  | nil =>
      intro acc ha _
      simpa using ha
  | cons p t ih =>
      intro acc ha hp
      simp only [wfFields, Bool.and_eq_true] at hp
      rw [List.foldl_cons]
      exact ih (objInsert acc p.1 p.2) (objInsert_wfFields acc p.1 p.2 ha hp.1) hp.2

theorem dictOfPairs_wfFields (ps : List (String × Json)) (h : wfFields ps = true) :
    wfFields (dictOfPairs ps) = true :=
  foldl_objInsert_wf ps [] rfl h

theorem expectChars_val (pat : List Char) (val : Json) (r2 : List Char) (v : Json)
    (r : List Char) (h : expectChars pat val r2 = some (v, r)) : v = val := by
  unfold expectChars at h
  split at h
  · obtain ⟨h1, _⟩ := Prod.mk.injEq .. ▸ Option.some.inj h
    exact h1.symm
  · cases h

theorem scanNumber_wf (cs : List Char) (v : Json) (r : List Char)
    (h : scanNumber cs = some (v, r)) : wfB v = true := by
  unfold scanNumber at h
  split at h
  · rename_i hvn
    simp only [Option.some.injEq, Prod.mk.injEq] at h
    obtain ⟨rfl, rfl⟩ := h
    simp only [wfB, wfNum, Bool.or_eq_true]
    exact Or.inl (Or.inl (Or.inl hvn))
  · cases h

mutual
theorem scanValue_wf : ∀ (fuel : Nat) (cs : List Char) (v : Json) (r : List Char),
    scanValue fuel cs = some (v, r) → wfB v = true
  | 0, cs, v, r, h => by simp [scanValue] at h
  | fuel + 1, cs, v, r, h => by
      unfold scanValue at h
      split at h
      · simp at h
      · rename_i c r1 hsw
        by_cases h1 : c = 'n'
        · rw [if_pos h1] at h
          rw [expectChars_val _ _ _ _ _ h]
          simp [wfB]
        · rw [if_neg h1] at h
          by_cases h2 : c = 't'
          · rw [if_pos h2] at h
            rw [expectChars_val _ _ _ _ _ h]
            simp [wfB]
          · rw [if_neg h2] at h
            by_cases h3 : c = 'f'
            · rw [if_pos h3] at h
              rw [expectChars_val _ _ _ _ _ h]
              simp [wfB]
            · rw [if_neg h3] at h
              by_cases h4 : c = 'N'
              · rw [if_pos h4] at h
                rw [expectChars_val _ _ _ _ _ h]
                simp [wfB, wfNum]
              · rw [if_neg h4] at h
                by_cases h5 : c = 'I'
                · rw [if_pos h5] at h
                  rw [expectChars_val _ _ _ _ _ h]
                  simp [wfB, wfNum]
                · rw [if_neg h5] at h
                  by_cases h6 : c = '"'
                  · rw [if_pos h6] at h
                    split at h
                    · simp only [Option.some.injEq, Prod.mk.injEq] at h
                      obtain ⟨hv, _⟩ := h
                      subst hv
                      simp [wfB]
                    · simp at h
                  · rw [if_neg h6] at h
                    by_cases h7 : c = '['
                    · rw [if_pos h7] at h
                      by_cases hb : headIs ']' (skipWs r1) = true
                      · rw [if_pos hb] at h
                        simp only [Option.some.injEq, Prod.mk.injEq] at h
                        obtain ⟨hv, _⟩ := h
                        subst hv
                        simp [wfB, wfList]
                      · rw [if_neg hb] at h
                        split at h
                        · simp only [Option.some.injEq, Prod.mk.injEq] at h
                          obtain ⟨hv, _⟩ := h
                          subst hv
                          simp only [wfB]
                          exact scanItems_wf fuel _ _ _ (by assumption)
                        · simp at h
                    · rw [if_neg h7] at h
                      by_cases h8 : c = Char.ofNat 123
                      · rw [if_pos h8] at h
                        by_cases hb : headIs (Char.ofNat 125) (skipWs r1) = true
                        · rw [if_pos hb] at h
                          simp only [Option.some.injEq, Prod.mk.injEq] at h
                          obtain ⟨hv, _⟩ := h
                          subst hv
                          simp [wfB, keysFresh, wfFields]
                        · rw [if_neg hb] at h
                          split at h
                          · simp only [Option.some.injEq, Prod.mk.injEq] at h
                            obtain ⟨hv, _⟩ := h
                            subst hv
                            simp only [wfB, Bool.and_eq_true]
                            exact ⟨dictOfPairs_keysFresh _,
                              dictOfPairs_wfFields _
                                (scanFields_wf fuel _ _ _ (by assumption))⟩
                          · simp at h
                      · rw [if_neg h8] at h
                        by_cases h9 : c = '-'
                        · rw [if_pos h9] at h
                          by_cases hp :
                              ['I', 'n', 'f', 'i', 'n', 'i', 't', 'y'].isPrefixOf r1 = true
                          · rw [if_pos hp] at h
                            simp only [Option.some.injEq, Prod.mk.injEq] at h
                            obtain ⟨hv, _⟩ := h
                            subst hv
                            simp [wfB, wfNum]
                          · rw [if_neg hp] at h
                            exact scanNumber_wf _ _ _ h
                        · rw [if_neg h9] at h
                          exact scanNumber_wf _ _ _ h

theorem scanItems_wf : ∀ (fuel : Nat) (cs : List Char) (vs : List Json) (r : List Char),
    scanItems fuel cs = some (vs, r) → wfList vs = true
  | 0, cs, vs, r, h => by simp [scanItems] at h
  | fuel + 1, cs, vs, r, h => by
      unfold scanItems at h
      split at h
      · simp at h
      · rename_i v0 r0 heq0
        by_cases hc : headIs ',' (skipWs r0) = true
        · rw [if_pos hc] at h
          split at h
          · simp only [Option.some.injEq, Prod.mk.injEq] at h
            obtain ⟨hv, _⟩ := h
            subst hv
            simp only [wfList, Bool.and_eq_true]
            exact ⟨scanValue_wf fuel _ _ _ heq0, scanItems_wf fuel _ _ _ (by assumption)⟩
          · simp at h
        · rw [if_neg hc] at h
          by_cases hr : headIs ']' (skipWs r0) = true
          · rw [if_pos hr] at h
            simp only [Option.some.injEq, Prod.mk.injEq] at h
            obtain ⟨hv, _⟩ := h
            subst hv
            simp only [wfList, Bool.and_eq_true]
            refine ⟨scanValue_wf fuel _ _ _ heq0, ?_⟩
            trivial
          · rw [if_neg hr] at h
            cases h

theorem scanFields_wf : ∀ (fuel : Nat) (cs : List Char) (ps : List (String × Json))
    (r : List Char), scanFields fuel cs = some (ps, r) → wfFields ps = true
  | 0, cs, ps, r, h => by simp [scanFields] at h
  | fuel + 1, cs, ps, r, h => by
      unfold scanFields at h
      by_cases hq : headIs '"' (skipWs cs) = true
      · rw [if_pos hq] at h
        split at h
        · cases h
        · rename_i key r1 hkey
          by_cases hc : headIs ':' (skipWs r1) = true
          · rw [if_pos hc] at h
            split at h
            · cases h
            · rename_i v0 r3 heq0
              by_cases hm : headIs ',' (skipWs r3) = true
              · rw [if_pos hm] at h
                split at h
                · simp only [Option.some.injEq, Prod.mk.injEq] at h
                  obtain ⟨hv, _⟩ := h
                  subst hv
                  simp only [wfFields, Bool.and_eq_true]
                  exact ⟨scanValue_wf fuel _ _ _ heq0,
                    scanFields_wf fuel _ _ _ (by assumption)⟩
                · simp at h
              · rw [if_neg hm] at h
                by_cases hr : headIs (Char.ofNat 125) (skipWs r3) = true
                · rw [if_pos hr] at h
                  simp only [Option.some.injEq, Prod.mk.injEq] at h
                  obtain ⟨hv, _⟩ := h
                  subst hv
                  simp only [wfFields, Bool.and_eq_true]
                  refine ⟨scanValue_wf fuel _ _ _ heq0, ?_⟩
                  trivial
                · rw [if_neg hr] at h
                  cases h
          · rw [if_neg hc] at h
            cases h
      · rw [if_neg hq] at h
        cases h
end

/-- Everything `json.loads` accepts is well-formed. -/
theorem json_loads_wf (s : String) (j : Json) (h : json_loads s = some j) :
    wfB j = true := by
  unfold json_loads at h
  cases heq : scanValue (s.data.length + 1) s.data with
  | none =>
      simp only [heq] at h
      exact Option.noConfusion h
  | some p =>
      obtain ⟨v, rest⟩ := p
      simp only [heq] at h
      by_cases hr : skipWs rest = []
      · rw [if_pos hr] at h
        exact Option.some.inj h ▸ scanValue_wf _ _ v rest heq
      · rw [if_neg hr] at h
        cases h

/-! ### The error envelope: well-formedness, decoding, accessors -/

theorem wfB_jsonInt (i : Int) : wfB (jsonInt i) = true := by
  simp [jsonInt, wfB, wfNum, validNumber_intChars]

theorem wfList_map_str (fs : List (String × Json)) :
    wfList (fs.map fun f => Json.str f.1) = true := by
  induction fs with
  | nil => simp [wfList]
  | cons f t ih => simp [wfList, wfB, ih]

theorem wfB_responseKeys (data : Json) : wfB (responseKeys data) = true := by
  cases data <;> simp [responseKeys, wfB, wfList_map_str]

theorem error_envelope_wf (code message ts : String)
    (details : List (String × Json))
    (hfresh : keysFresh (("timestamp", Json.str ts) :: details) = true)
    (hwf : wfFields details = true) :
    wfB (error_envelope_json code message ts details) = true := by
  simp [error_envelope_json, wfB, wfFields, keysFresh, hwf]
  simpa [keysFresh] using hfresh

theorem loads_create_error_response (code message ts : String)
    (details : List (String × Json))
    (hfresh : keysFresh (("timestamp", Json.str ts) :: details) = true)
    (hwf : wfFields details = true) :
    json_loads (create_error_response code message ts details) =
      some (error_envelope_json code message ts details) :=
  json_loads_dumps _ (error_envelope_wf code message ts details hfresh hwf)

theorem error_envelope_isError (code message ts : String)
    (details : List (String × Json)) :
    isErrorEnvelope (error_envelope_json code message ts details) = true := by
  simp [isErrorEnvelope, error_envelope_json, jsonGet, lookupField]

theorem error_envelope_data_null (code message ts : String)
    (details : List (String × Json)) :
    jsonGet (error_envelope_json code message ts details) "data" =
      some Json.null := by
  simp [error_envelope_json, jsonGet, lookupField]

theorem error_envelope_code (code message ts : String)
    (details : List (String × Json)) :
    envCode (error_envelope_json code message ts details) =
      some (.str code) := by
  simp [envCode, error_envelope_json, jsonGet, lookupField]

theorem error_envelope_details (code message ts : String)
    (details : List (String × Json)) :
    envDetails (error_envelope_json code message ts details) =
      some (.obj (("timestamp", .str ts) :: details)) := by
  simp [envDetails, error_envelope_json, jsonGet, lookupField]

/-- Every `except` clause of `get_response` answers with
`_create_error_response` applied to a detail list whose keys are fresh and
whose values are well-formed. -/
theorem handlers_wf (e : PyExc) (ts : String) :
    ∃ code message details,
      get_response_handlers e ts = create_error_response code message ts details ∧
      keysFresh (("timestamp", Json.str ts) :: details) = true ∧
      wfFields details = true := by
  cases e <;>
    try exact ⟨_, _, _, rfl, by simp [keysFresh],
      by simp [wfFields, wfB, jsonInt, wfNum, validNumber_intChars]⟩
  rename_i st
  cases st with
  | none =>
      exact ⟨_, _, _, rfl, by simp [keysFresh],
        by simp [wfFields, wfB, jsonInt, wfNum, validNumber_intChars]⟩
  | some v =>
      by_cases hb : 400 ≤ v ∧ v < 600
      · exact ⟨_, _, _, if_pos hb, by simp [keysFresh],
          by simp [wfFields, wfB, jsonInt, wfNum, validNumber_intChars]⟩
      · exact ⟨_, _, _, if_neg hb, by simp [keysFresh],
          by simp [wfFields, wfB, jsonInt, wfNum, validNumber_intChars]⟩

/-- Every `except` clause's answer decodes as a well-shaped error envelope
with a null `data` slot. -/
theorem handlers_parse (e : PyExc) (ts : String) :
    ∃ env, json_loads (get_response_handlers e ts) = some env ∧
      isErrorEnvelope env = true ∧ jsonGet env "data" = some Json.null := by
  obtain ⟨c, m, d, heq, hf, hw⟩ := handlers_wf e ts
  refine ⟨error_envelope_json c m ts d, ?_, error_envelope_isError c m ts d,
    error_envelope_data_null c m ts d⟩
  rw [heq]
  exact loads_create_error_response c m ts d hf hw

theorem get_response_of_error (ts u : String) (outcome : UpstreamOutcome)
    (e : PyExc) (h : get_response_try outcome ts = .error e) :
    get_response ts u outcome = get_response_handlers e ts := by
  unfold get_response
  rw [h]

theorem get_response_of_ok (ts u : String) (outcome : UpstreamOutcome)
    (s : String) (h : get_response_try outcome ts = .ok s) :
    get_response ts u outcome = s := by
  unfold get_response
  rw [h]

/-! ### Dict lookup, the membership test, and `_fix_timestamp_in_response` -/

theorem lookupField_objInsert_self (fs : List (String × Json)) (k : String)
    (v : Json) : lookupField (objInsert fs k v) k = some v := by
  induction fs with
  | nil => simp [objInsert, lookupField]
  | cons f t ih =>
      obtain ⟨k0, v0⟩ := f
      by_cases hk : k0 = k
      · simp [objInsert, hk, lookupField]
      · simp [objInsert, hk, lookupField, ih]

theorem lookupField_wf (fs : List (String × Json)) (k : String) (v : Json)
    (hw : wfFields fs = true) (h : lookupField fs k = some v) : wfB v = true := by
  induction fs with
  | nil => exact Option.noConfusion h
  | cons f t ih =>
      obtain ⟨k0, v0⟩ := f
      simp only [wfFields, Bool.and_eq_true] at hw
      simp only [lookupField] at h
      by_cases hk : k0 = k
      · rw [if_pos hk] at h
        cases h
        exact hw.1
      · rw [if_neg hk] at h
        exact ih hw.2 h


theorem any_false_lookup_none (fs : List (String × Json)) (k : String)
    (h : (fs.any fun f => f.1 = k) = false) : lookupField fs k = none := by
  induction fs with
  | nil => rfl
  | cons f t ih =>
      obtain ⟨k0, v0⟩ := f
      simp only [List.any_cons, Bool.or_eq_false_iff, decide_eq_false_iff_not] at h
      simp [lookupField, h.1, ih h.2]

theorem pyContains_ok_false (k : String) (v : Json) (h : pyContains k v = .ok false) :
    jsonGet v k = none := by
  cases v with
  | obj fs =>
      simp only [pyContains, Except.ok.injEq] at h
      simp [jsonGet, any_false_lookup_none fs k h]
  | str s => rfl
  | arr xs => rfl
  | null => simp [pyContains] at h
  | bool b => simp [pyContains] at h
  | num lit => simp [pyContains] at h

theorem pyGetKey_ok (v : Json) (k : String) (x : Json) (h : pyGetKey v k = .ok x) :
    ∃ fs, v = .obj fs ∧ lookupField fs k = some x := by
  cases v with
  | obj fs =>
      refine ⟨fs, rfl, ?_⟩
      simp only [pyGetKey] at h
      cases hl : lookupField fs k with
      | some y => rw [hl] at h; cases h; rfl
      | none => rw [hl] at h; cases h
  | str s => simp [pyGetKey] at h
  | arr xs => simp [pyGetKey] at h
  | null => simp [pyGetKey] at h
  | bool b => simp [pyGetKey] at h
  | num lit => simp [pyGetKey] at h

theorem pySetKey_ok (v : Json) (k : String) (x w : Json) (h : pySetKey v k x = .ok w) :
    ∃ fs, v = .obj fs ∧ w = .obj (objInsert fs k x) := by
  cases v with
  | obj fs =>
      simp only [pySetKey, Except.ok.injEq] at h
      exact ⟨fs, rfl, h.symm⟩
  | str s => simp [pySetKey] at h
  | arr xs => simp [pySetKey] at h
  | null => simp [pySetKey] at h
  | bool b => simp [pySetKey] at h
  | num lit => simp [pySetKey] at h

theorem fix_timestamp_cases (response ts s : String)
    (h : fix_timestamp_in_response response ts = .ok s) :
    (json_loads response = none ∧ s = response) ∨
    (∃ parsed, json_loads response = some parsed ∧ s = response ∧
      (jsonGet parsed "data" = none ∨
       ∃ d0, jsonGet parsed "data" = some d0 ∧ jsonGet d0 "metadata" = none)) ∨
    (∃ fs ds ms, json_loads response = some (.obj fs) ∧
      lookupField fs "data" = some (.obj ds) ∧
      lookupField ds "metadata" = some (.obj ms) ∧
      s = json_dumps (.obj (objInsert fs "data"
        (.obj (objInsert ds "metadata"
          (.obj (objInsert ms "timestamp" (.str ts)))))))) := by
  unfold fix_timestamp_in_response at h
  cases hp : json_loads response with
  | none =>
      rw [hp] at h
      cases h
      exact Or.inl ⟨rfl, rfl⟩
  | some parsed =>
      rw [hp] at h
      simp only [bind, Except.bind] at h
      cases hc : pyContains "data" parsed with
      | error e => rw [hc] at h; simp at h
      | ok hasData =>
          simp only [hc] at h
          cases hasData with
          | false =>
              simp only [Bool.false_eq_true, if_false] at h
              cases h
              exact Or.inr (Or.inl ⟨parsed, rfl, rfl,
                Or.inl (pyContains_ok_false "data" parsed hc)⟩)
          | true =>
              rw [if_pos rfl] at h
              cases hd : pyGetKey parsed "data" with
              | error e => rw [hd] at h; simp at h
              | ok d =>
                  simp only [hd] at h
                  cases hm : pyContains "metadata" d with
                  | error e => rw [hm] at h; simp at h
                  | ok hasMeta =>
                      simp only [hm] at h
                      cases hasMeta with
                      | false =>
                          simp only [Bool.false_eq_true, if_false] at h
                          cases h
                          obtain ⟨fs, rfl, hlk⟩ := pyGetKey_ok parsed "data" d hd
                          exact Or.inr (Or.inl ⟨.obj fs, rfl, rfl,
                            Or.inr ⟨d, by simp [jsonGet, hlk],
                              pyContains_ok_false "metadata" d hm⟩⟩)
                      | true =>
                          rw [if_pos rfl] at h
                          cases hm2 : pyGetKey d "metadata" with
                          | error e => rw [hm2] at h; simp at h
                          | ok m =>
                              simp only [hm2] at h
                              cases hs1 : pySetKey m "timestamp" (.str ts) with
                              | error e => rw [hs1] at h; simp at h
                              | ok m2 =>
                                  simp only [hs1] at h
                                  cases hs2 : pySetKey d "metadata" m2 with
                                  | error e => rw [hs2] at h; simp at h
                                  | ok d3 =>
                                      simp only [hs2] at h
                                      cases hs3 : pySetKey parsed "data" d3 with
                                      | error e => rw [hs3] at h; simp at h
                                      | ok parsed2 =>
                                          simp only [hs3] at h
                                          cases h
                                          obtain ⟨fs, rfl, hlk⟩ := pyGetKey_ok parsed "data" d hd
                                          obtain ⟨ds, rfl, hlm⟩ := pyGetKey_ok d "metadata" m hm2
                                          obtain ⟨ms, rfl, rfl⟩ := pySetKey_ok m "timestamp" (.str ts) m2 hs1
                                          obtain ⟨ds2, hds2, rfl⟩ := pySetKey_ok _ "metadata" _ d3 hs2
                                          obtain ⟨fs2, hfs2, rfl⟩ := pySetKey_ok _ "data" _ parsed2 hs3
                                          obtain ⟨rfl⟩ := Json.obj.injEq .. ▸ hds2
                                          obtain ⟨rfl⟩ := Json.obj.injEq .. ▸ hfs2
                                          exact Or.inr (Or.inr ⟨fs, ds, ms, rfl, hlk, hlm, rfl⟩)

/-! ### `_extract_response_content` paths -/

theorem extract_try_ok (data : Json) (ts s : String)
    (h : extract_try data ts = .ok s) :
    ∃ raw, fix_timestamp_in_response (clean_markdown_json raw) ts = .ok s := by
  unfold extract_try at h
  simp only [bind, Except.bind] at h
  cases h1 : pyGetKey data "result" with
  | error e => rw [h1] at h; simp at h
  | ok result =>
      simp only [h1] at h
      cases h2 : pyGetKey result "alternatives" with
      | error e => rw [h2] at h; simp at h
      | ok alternatives =>
          simp only [h2] at h
          by_cases hf : pyFalsy alternatives = true
          · rw [if_pos hf] at h; simp at h
          · rw [if_neg hf] at h
            cases h3 : pyGetIdx alternatives 0 with
            | error e => rw [h3] at h; simp at h
            | ok alt0 =>
                simp only [h3] at h
                cases h4 : pyGetKey alt0 "message" with
                | error e => rw [h4] at h; simp at h
                | ok msg =>
                    simp only [h4] at h
                    cases h5 : pyGetKey msg "text" with
                    | error e => rw [h5] at h; simp at h
                    | ok raw =>
                        simp only [h5] at h
                        cases raw with
                        | str s1 => exact ⟨s1, h⟩
                        | null => simp at h
                        | bool b => simp at h
                        | num lit => simp at h
                        | arr xs => simp at h
                        | obj fs => simp at h

theorem extract_ok_cases (data : Json) (ts s : String)
    (h : extract_response_content data ts = .ok s) :
    s = api_structure_response data ts ∨
    ∃ raw, fix_timestamp_in_response (clean_markdown_json raw) ts = .ok s := by
  unfold extract_response_content at h
  cases he : extract_try data ts with
  | ok s0 =>
      rw [he] at h
      injection h with hss
      subst hss
      exact Or.inr (extract_try_ok data ts s0 he)
  | error e =>
      cases e <;> simp only [he] at h <;> first
        | exact Option.noConfusion h
        | (cases h; exact Or.inl rfl)
        | exact Except.noConfusion h

theorem api_structure_parse (data : Json) (ts : String) :
    json_loads (api_structure_response data ts) =
      some (error_envelope_json "api_structure_error"
        "Неожиданная структура ответа от Yandex API" ts
        [("response_keys", responseKeys data)]) := by
  unfold api_structure_response
  exact loads_create_error_response _ _ _ _ (by simp [keysFresh])
    (by simp [wfFields, wfB_responseKeys])

/-! ### The claims -/

/-- Claim C1, amended: on every error path — whenever the `try` block of
`get_response` raises — the returned string decodes as the fixed error
envelope (status `"error"`, `data` null, an `error` object with `code`,
`message` and `details`).  The unconditional claim, covering the success
path too, fails: the upstream model's cleaned message text is passed
through as-is, and need not decode as the envelope (see the
counterexample). -/
theorem get_response_error_paths_envelope (ts u : String)
    (outcome : UpstreamOutcome) (e : PyExc)
    (h : get_response_try outcome ts = .error e) :
    ∃ env, json_loads (get_response ts u outcome) = some env ∧
      isErrorEnvelope env = true := by
  rw [get_response_of_error ts u outcome e h]
  obtain ⟨env, h1, h2, _⟩ := handlers_parse e ts
  exact ⟨env, h1, h2⟩

/-- Witness for the amended C1 theorem at the timeout outcome. -/
theorem get_response_error_paths_envelope_witness :
    get_response_try .timeout "T" = .error .timeoutExc ∧
    ∃ env, json_loads (get_response "T" "u" .timeout) = some env ∧
      isErrorEnvelope env = true :=
  ⟨rfl, get_response_error_paths_envelope "T" "u" .timeout .timeoutExc rfl⟩

/-- Claim C1, counterexample: on the success path the claim fails.  When
the model replies with the JSON text `"привет"` (a bare string, as a model
free to answer anything can), `get_response` returns it unchanged; it
decodes as a JSON string, not as an envelope object, and carries no
`status` tag at all. -/
theorem get_response_success_not_envelope :
    json_loads (get_response "T" "u"
        (.body (upstream_body (json_dumps (.str "привет"))))) =
      some (.str "привет") ∧
    isErrorEnvelope (.str "привет") = false ∧
    jsonGet (.str "привет") "status" = none :=
  ⟨rfl, rfl, rfl⟩

/-- Claim C2: any decoded `data.metadata.timestamp` of `get_response`'s
answer equals the timestamp computed at the head of the call, whatever
timestamp the upstream model emitted.  (On every path whose answer decodes
with a `data.metadata` object at all, the field was overwritten with `ts`;
all other paths are vacuous because `data` decodes as null, absent, or
without `metadata`.) -/
theorem get_response_timestamp_overwritten (ts u : String)
    (outcome : UpstreamOutcome) (j d m : Json)
    (hj : json_loads (get_response ts u outcome) = some j)
    (hd : jsonGet j "data" = some d)
    (hm : jsonGet d "metadata" = some m) :
    jsonGet m "timestamp" = some (.str ts) := by
  cases htry : get_response_try outcome ts with
  | error e =>
      rw [get_response_of_error ts u outcome e htry] at hj
      obtain ⟨env, h1, _, h3⟩ := handlers_parse e ts
      rw [h1] at hj
      injection hj with hj'
      subst hj'
      rw [h3] at hd
      injection hd with hd'
      subst hd'
      exact Option.noConfusion hm
  | ok s =>
      rw [get_response_of_ok ts u outcome s htry] at hj
      cases outcome <;> simp [get_response_try] at htry
      rename_i data
      rcases extract_ok_cases data ts s htry with hapi | ⟨raw, hfix⟩
      · subst hapi
        rw [api_structure_parse data ts] at hj
        injection hj with hj'
        subst hj'
        rw [error_envelope_data_null _ _ _ _] at hd
        injection hd with hd'
        subst hd'
        exact Option.noConfusion hm
      · rcases fix_timestamp_cases _ ts s hfix with
          ⟨hnone, rfl⟩ | ⟨parsed, hsome, rfl, hcase⟩ |
          ⟨fs, ds, ms, hsome, hlk, hlm, rfl⟩
        · rw [hnone] at hj
          exact Option.noConfusion hj
        · rw [hsome] at hj
          injection hj with hj'
          subst hj'
          rcases hcase with hno | ⟨d0, hd0, hno⟩
          · rw [hno] at hd
            exact Option.noConfusion hd
          · rw [hd0] at hd
            injection hd with hd'
            subst hd'
            rw [hno] at hm
            exact Option.noConfusion hm
        · have hwparsed := json_loads_wf _ _ hsome
          simp only [wfB, Bool.and_eq_true] at hwparsed
          have hwd : wfB (.obj ds) = true :=
            lookupField_wf fs "data" _ hwparsed.2 hlk
          simp only [wfB, Bool.and_eq_true] at hwd
          have hwm : wfB (.obj ms) = true :=
            lookupField_wf ds "metadata" _ hwd.2 hlm
          simp only [wfB, Bool.and_eq_true] at hwm
          have hwf2 : wfB (.obj (objInsert fs "data"
              (.obj (objInsert ds "metadata"
                (.obj (objInsert ms "timestamp" (.str ts))))))) = true := by
            simp only [wfB, Bool.and_eq_true]
            refine ⟨objInsert_keysFresh fs "data" _ hwparsed.1,
              objInsert_wfFields fs "data" _ hwparsed.2 ?_⟩
            simp only [wfB, Bool.and_eq_true]
            refine ⟨objInsert_keysFresh ds "metadata" _ hwd.1,
              objInsert_wfFields ds "metadata" _ hwd.2 ?_⟩
            simp only [wfB, Bool.and_eq_true]
            exact ⟨objInsert_keysFresh ms "timestamp" _ hwm.1,
              objInsert_wfFields ms "timestamp" _ hwm.2 (by simp [wfB])⟩
          rw [json_loads_dumps _ hwf2] at hj
          injection hj with hj'
          subst hj'
          have h1 : jsonGet (Json.obj (objInsert fs "data"
              (.obj (objInsert ds "metadata"
                (.obj (objInsert ms "timestamp" (.str ts))))))) "data" =
              some (.obj (objInsert ds "metadata"
                (.obj (objInsert ms "timestamp" (.str ts))))) := by
            simp [jsonGet, lookupField_objInsert_self]
          rw [h1] at hd
          injection hd with hd'
          subst hd'
          have h2 : jsonGet (Json.obj (objInsert ds "metadata"
              (.obj (objInsert ms "timestamp" (.str ts))))) "metadata" =
              some (.obj (objInsert ms "timestamp" (.str ts))) := by
            simp [jsonGet, lookupField_objInsert_self]
          rw [h2] at hm
          injection hm with hm'
          subst hm'
          simp [jsonGet, lookupField_objInsert_self]

/-- Witness for the C2 theorem: the model replies with a success envelope
bearing the wrong timestamp `"WRONG"`; the answer decodes with
`data.metadata.timestamp` equal to the locally computed `"T"`. -/
theorem get_response_timestamp_overwritten_witness :
    json_loads (get_response "T" "u" (.body (upstream_body (json_dumps (.obj
      [("status", .str "success"),
       ("data", .obj [("text", .str "hi"),
         ("metadata", .obj [("model", .str "yandexgpt"),
           ("timestamp", .str "WRONG")])]),
       ("error", .null)]))))) =
      some (.obj [("status", .str "success"),
        ("data", .obj [("text", .str "hi"),
          ("metadata", .obj [("model", .str "yandexgpt"),
            ("timestamp", .str "T")])]),
        ("error", .null)]) ∧
    jsonGet (.obj [("status", .str "success"),
        ("data", .obj [("text", .str "hi"),
          ("metadata", .obj [("model", .str "yandexgpt"),
            ("timestamp", .str "T")])]),
        ("error", .null)]) "data" =
      some (.obj [("text", .str "hi"),
        ("metadata", .obj [("model", .str "yandexgpt"),
          ("timestamp", .str "T")])]) ∧
    jsonGet (.obj [("text", .str "hi"),
        ("metadata", .obj [("model", .str "yandexgpt"),
          ("timestamp", .str "T")])]) "metadata" =
      some (.obj [("model", .str "yandexgpt"), ("timestamp", .str "T")]) ∧
    jsonGet (.obj [("model", .str "yandexgpt"), ("timestamp", .str "T")])
        "timestamp" = some (.str "T") :=
  ⟨rfl, rfl, rfl,
    get_response_timestamp_overwritten "T" "u"
      (.body (upstream_body (json_dumps (.obj
        [("status", .str "success"),
         ("data", .obj [("text", .str "hi"),
           ("metadata", .obj [("model", .str "yandexgpt"),
             ("timestamp", .str "WRONG")])]),
         ("error", .null)]))))
      (.obj [("status", .str "success"),
        ("data", .obj [("text", .str "hi"),
          ("metadata", .obj [("model", .str "yandexgpt"),
            ("timestamp", .str "T")])]),
        ("error", .null)])
      (.obj [("text", .str "hi"),
        ("metadata", .obj [("model", .str "yandexgpt"),
          ("timestamp", .str "T")])])
      (.obj [("model", .str "yandexgpt"), ("timestamp", .str "T")])
      rfl rfl rfl⟩

/-- Claim C3, refuted as stated — the code disagrees with it.  When the
2xx body is undecodable, `response.json()` (requests ≥ 2.27) raises
`requests.exceptions.JSONDecodeError`, a `RequestException` subclass, so
the earlier `except RequestException` clause catches it: the answer is the
`request_error` envelope with `retry_after = 30` and `error_type =
"JSONDecodeError"`, not the `json_decode_error` envelope of the dedicated
— unreachable — `except json.JSONDecodeError` clause. -/
theorem invalid_body_shadowed_by_request_error (ts u : String) :
    get_response ts u .invalidJsonBody =
      create_error_response "request_error"
        "Ошибка при выполнении запроса к API" ts
        [("error_type", .str "JSONDecodeError"), ("retry_after", jsonInt 30)] ∧
    ∃ env, json_loads (get_response ts u .invalidJsonBody) = some env ∧
      envCode env = some (.str "request_error") ∧
      envCode env ≠ some (.str "json_decode_error") ∧
      envDetail env "error_type" = some (.str "JSONDecodeError") ∧
      envDetail env "retry_after" = some (jsonInt 30) := by
  refine ⟨rfl, error_envelope_json "request_error"
      "Ошибка при выполнении запроса к API" ts
      [("error_type", .str "JSONDecodeError"), ("retry_after", jsonInt 30)],
    ?_, error_envelope_code _ _ _ _, ?_, ?_, ?_⟩
  · exact loads_create_error_response _ _ _ _ (by simp [keysFresh])
      (by simp [wfFields, wfB, jsonInt, wfNum, validNumber_intChars])
  · rw [error_envelope_code]
    simp
  · simp [envDetail, envDetails, error_envelope_json, jsonGet, lookupField]
  · simp [envDetail, envDetails, error_envelope_json, jsonGet, lookupField]

/-- Claim C4: on an upstream timeout the answer decodes as the error
envelope with code `"timeout_error"` and `details.retry_after = 30`. -/
theorem get_response_timeout_envelope (ts u : String) :
    ∃ env, json_loads (get_response ts u .timeout) = some env ∧
      isErrorEnvelope env = true ∧
      envCode env = some (.str "timeout_error") ∧
      envDetail env "retry_after" = some (jsonInt 30) := by
  refine ⟨error_envelope_json "timeout_error"
      "Превышено время ожидания ответа от API" ts
      [("retry_after", jsonInt 30)], ?_, error_envelope_isError _ _ _ _,
    error_envelope_code _ _ _ _, ?_⟩
  · exact loads_create_error_response _ _ _ _ (by simp [keysFresh])
      (by simp [wfFields, wfB, jsonInt, wfNum, validNumber_intChars])
  · simp [envDetail, envDetails, error_envelope_json, jsonGet, lookupField]

/-- Claim C5, refuted as stated — the code disagrees with it.  The guard
`if e.response` in the HTTPError clause calls `Response.__bool__`, which is
`Response.ok` — `False` for every 4xx/5xx status, i.e. for every status
`raise_for_status()` raises on.  So for every HTTP failure — 429 and 404
alike — the program takes the falsy branch: the envelope's details carry
`status_code = "unknown"` (not the numeric status) and `retry_after = 30`
(never 60). -/
theorem http_error_status_unknown (ts u : String) (st : Int)
    (h4 : 400 ≤ st) (h6 : st < 600) :
    ∃ env, json_loads (get_response ts u (.httpFailure st)) = some env ∧
      envCode env = some (.str "http_error") ∧
      envDetail env "status_code" = some (.str "unknown") ∧
      envDetail env "retry_after" = some (jsonInt 30) := by
  have hred : get_response ts u (.httpFailure st) =
      create_error_response "http_error" "HTTP ошибка: unknown" ts
        [("status_code", .str "unknown"), ("retry_after", jsonInt 30)] :=
    if_pos ⟨h4, h6⟩
  rw [hred, loads_create_error_response _ _ _ _ (by simp [keysFresh])
    (by simp [wfFields, wfB, jsonInt, wfNum, validNumber_intChars])]
  refine ⟨_, rfl, error_envelope_code _ _ _ _, ?_, ?_⟩
  · simp [envDetail, envDetails, error_envelope_json, jsonGet, lookupField]
  · simp [envDetail, envDetails, error_envelope_json, jsonGet, lookupField]

/-- Witness for the C5 theorem at status 429: even there, the details carry
`status_code = "unknown"` and `retry_after = 30`. -/
theorem http_error_status_unknown_witness :
    (400 ≤ (429 : Int)) ∧ ((429 : Int) < 600) ∧
    ∃ env, json_loads (get_response "T" "u" (.httpFailure 429)) = some env ∧
      envCode env = some (.str "http_error") ∧
      envDetail env "status_code" = some (.str "unknown") ∧
      envDetail env "retry_after" = some (jsonInt 30) :=
  ⟨by decide, by decide,
    http_error_status_unknown "T" "u" 429 (by decide) (by decide)⟩

/-- Claim C6, amended: every navigation failure on
`result.alternatives[0].message.text` that raises `KeyError` or
`IndexError` — in particular a missing or an empty `alternatives` list —
yields the `api_structure_error` envelope, whose details carry no
`retry_after` key.  The claim's broader reading — every unexpectedly
structured body yields `api_structure_error` — fails, because only
`KeyError` and `IndexError` are mapped to it; other navigation failures
raise `TypeError` and fall to the `unknown_error` handler, which does
attach `retry_after` (see the counterexample). -/
theorem api_structure_error_no_retry (ts u : String) :
    (∀ data : Json,
      extract_try data ts = .error .keyErrorExc ∨
        extract_try data ts = .error .indexErrorExc →
      ∃ env, json_loads (get_response ts u (.body data)) = some env ∧
        envCode env = some (.str "api_structure_error") ∧
        envDetailHasKey env "retry_after" = false) ∧
    extract_try empty_alternatives_body ts = .error .keyErrorExc ∧
    extract_try (.obj [("result", .obj [])]) ts = .error .keyErrorExc := by
  refine ⟨?_, rfl, rfl⟩
  intro data h
  have hex : extract_response_content data ts =
      .ok (api_structure_response data ts) := by
    unfold extract_response_content
    rcases h with h | h <;> rw [h]
  have hg : get_response ts u (.body data) = api_structure_response data ts :=
    get_response_of_ok ts u (.body data) _ hex
  rw [hg, api_structure_parse data ts]
  refine ⟨_, rfl, error_envelope_code _ _ _ _, ?_⟩
  simp [envDetailHasKey, envDetails, error_envelope_json, jsonGet, lookupField]

/-- Witness for the amended C6 theorem at the empty-alternatives body. -/
theorem api_structure_error_no_retry_witness :
    ∃ env, json_loads (get_response "T" "u" (.body empty_alternatives_body)) =
        some env ∧
      envCode env = some (.str "api_structure_error") ∧
      envDetailHasKey env "retry_after" = false :=
  (api_structure_error_no_retry "T" "u").1 empty_alternatives_body (Or.inl rfl)

/-- Claim C6, counterexample to the broader reading: a 2xx body in which
`result` is a string — an unexpected structure on the navigated path —
yields `unknown_error` (the navigation raises `TypeError`, which the
structure handler does not catch), and its details do carry
`retry_after`. -/
theorem structure_error_not_for_type_errors :
    ∃ env, json_loads (get_response "T" "u"
        (.body (.obj [("result", .str "hello")]))) = some env ∧
      envCode env = some (.str "unknown_error") ∧
      envCode env ≠ some (.str "api_structure_error") ∧
      envDetailHasKey env "retry_after" = true := by
  refine ⟨error_envelope_json "unknown_error"
      "Произошла непредвиденная ошибка" "T"
      [("error_type", .str "TypeError"),
       ("error_message", .str "string indices must be integers, not 'str'"),
       ("retry_after", jsonInt 60)], ?_, error_envelope_code _ _ _ _, ?_, ?_⟩
  · exact loads_create_error_response _ _ _ _ (by simp [keysFresh])
      (by simp [wfFields, wfB, jsonInt, wfNum, validNumber_intChars])
  · rw [error_envelope_code]
    simp
  · simp [envDetailHasKey, envDetails, error_envelope_json, jsonGet, lookupField]

/-- Claim C8: no exception crosses `get_response`'s boundary.  For every
upstream outcome, either the `try` body completed and its string is
returned as-is, or the raised exception was converted by an `except`
clause into a string that decodes as the fixed error envelope. -/
theorem get_response_never_raises (ts u : String) (outcome : UpstreamOutcome) :
    (∃ s, get_response_try outcome ts = .ok s ∧ get_response ts u outcome = s) ∨
    (∃ env, json_loads (get_response ts u outcome) = some env ∧
      isErrorEnvelope env = true) := by
  cases htry : get_response_try outcome ts with
  | ok s => exact Or.inl ⟨s, rfl, get_response_of_ok ts u outcome s htry⟩
  | error e =>
      rw [get_response_of_error ts u outcome e htry]
      obtain ⟨env, h1, h2, _⟩ := handlers_parse e ts
      exact Or.inr ⟨env, h1, h2⟩

/-- Claim C9: handling one inbound text message performs exactly two
outbound actions, in order: send the `"Думаю..."` placeholder (which the
platform stores under the id `st.next_id`), then edit the message with
that same id — never another — to the client's answer. -/
theorem message_handler_placeholder_then_edit (st : ChatState) (chat : Int)
    (user_message ts : String) (outcome : UpstreamOutcome) :
    (message_handler st chat user_message ts outcome).2 =
      [.sendMessage chat st.next_id "Думаю...",
       .editMessageText chat st.next_id (get_response ts user_message outcome)] :=
  rfl

/-- Claim C10: when the model's message text is the error variant the
system prompt itself prescribes — a JSON object whose `data` is null —
the membership test `"metadata" in parsed_json["data"]` raises
`TypeError`, which `_fix_timestamp_in_response` does not catch, and
`get_response` answers with the `unknown_error` envelope
(`error_type = "TypeError"`, `retry_after = 60`) instead of passing the
model's own envelope through. -/
theorem data_null_reply_unknown_error (ts u : String) :
    ∃ env, json_loads (get_response ts u (.body (upstream_body (json_dumps (.obj
        [("status", .str "error"), ("data", .null),
         ("error", .obj [("code", .str "model_error"),
           ("message", .str "upstream failure")])]))))) = some env ∧
      envCode env = some (.str "unknown_error") ∧
      envDetail env "error_type" = some (.str "TypeError") ∧
      envDetail env "retry_after" = some (jsonInt 60) := by
  refine ⟨error_envelope_json "unknown_error"
      "Произошла непредвиденная ошибка" ts
      [("error_type", .str "TypeError"),
       ("error_message", .str "argument of type 'NoneType' is not iterable"),
       ("retry_after", jsonInt 60)], ?_, error_envelope_code _ _ _ _, ?_, ?_⟩
  · exact loads_create_error_response _ _ _ _ (by simp [keysFresh])
      (by simp [wfFields, wfB, jsonInt, wfNum, validNumber_intChars])
  · simp [envDetail, envDetails, error_envelope_json, jsonGet, lookupField]
  · simp [envDetail, envDetails, error_envelope_json, jsonGet, lookupField]
